import Mathlib

/-! ## xhub: study and trial controllers over an ordered key-value bucket

A shallow embedding of `src/studies.go` (package `studies`, the handlers
`post`, `list`, `get`, `delete` of `StudyController`) and of `src/trial.go`
(package `xhub`, the handlers `Post`, `List`, `Get`, `Delete` of
`TrialController`), together with the `Resource` envelope of `src/xhub.go`.

Stateful code is written in state-passing style: a handler takes the
controller (which owns its buckets) and the response writer and returns both.
Go's `(value, error)` results are kept as pairs, because several handlers go
on after reporting an error instead of returning.
-/

/-! ## Byte strings -/

/-- A Go byte string (`[]byte` or `string`), as the list of its characters. -/
abbrev Bytes := List Char

/-- Go's `bytes.Compare(a, b) < 0`: the lexicographic order in which the
ordered store keeps its keys. -/
def bytesLt : Bytes → Bytes → Bool
  | [], [] => false
  | [], _ :: _ => true
  | _ :: _, [] => false
  | a :: as, b :: bs => if a < b then true else if a = b then bytesLt as bs else false

/-- Go's `bytes.HasPrefix(k, pre)`. -/
def hasPrefix (k pre : Bytes) : Bool := pre.isPrefixOf k

/-! ## The ordered store (external collaborator) -/

/-- One key/value pair of a bucket (`buckets.Item`). -/
structure Item where
  Key : Bytes
  Value : Bytes
  deriving DecidableEq, Repr

/-- The failures the storage engine can answer with: each operation of a
bucket either succeeds (`none`) or returns an error message. -/
structure Faults where
  getErr : Bytes → Option Bytes
  putErr : Bytes → Bytes → Option Bytes
  deleteErr : Bytes → Option Bytes
  itemsErr : Option Bytes
  scanErr : Bytes → Option Bytes

/-- A store on which no operation ever fails. -/
def Faults.never : Faults :=
  { getErr := fun _ => none
    putErr := fun _ _ => none
    deleteErr := fun _ => none
    itemsErr := none
    scanErr := fun _ => none }

/-- Modelled from the spec: the bucket type of the external library
`github.com/joyrexus/buckets` is not part of the sources; this is the ordered
store of the spec's section 6, a sequence of key/value pairs kept in ascending
key order, together with the failures it may report. -/
structure Bucket where
  items : List Item
  faults : Faults

/-- The keys of a bucket are strictly ascending (so also pairwise distinct). -/
def Bucket.WF (b : Bucket) : Prop :=
  b.items.Pairwise (fun x y => bytesLt x.Key y.Key = true)

/-- Every operation on the bucket succeeds. -/
def Bucket.Reliable (b : Bucket) : Prop :=
  (∀ k, b.faults.getErr k = none) ∧ (∀ k v, b.faults.putErr k v = none) ∧
  (∀ k, b.faults.deleteErr k = none) ∧ b.faults.itemsErr = none ∧
  (∀ p, b.faults.scanErr p = none)

/-- The empty bucket on a store that never fails. -/
def Bucket.empty : Bucket := { items := [], faults := Faults.never }

/-- Point lookup in the item sequence. -/
def lookupKey (k : Bytes) : List Item → Option Bytes
  | [] => none
  | it :: rest => if it.Key = k then some it.Value else lookupKey k rest

/-- Ordered insertion: replaces the value of an existing key, otherwise
inserts the pair at its place in key order. -/
def insertKey (k v : Bytes) : List Item → List Item
  | [] => [⟨k, v⟩]
  | it :: rest =>
    if bytesLt k it.Key then ⟨k, v⟩ :: it :: rest
    else if k = it.Key then ⟨k, v⟩ :: rest
    else it :: insertKey k v rest

/-- Removal of a key. -/
def removeKey (k : Bytes) (l : List Item) : List Item :=
  l.filter (fun it => decide (it.Key ≠ k))

/-- Modelled from the spec: `Bucket.Get` of the external buckets library,
`Get(key) → bytes|absent` in section 6. The value is `none` (Go `nil`) when
the key is absent or the lookup fails. -/
def Bucket.Get (b : Bucket) (k : Bytes) : Option Bytes × Option Bytes :=
  match b.faults.getErr k with
  | some e => (none, some e)
  | none => (lookupKey k b.items, none)

/-- Modelled from the spec: `Bucket.Put` of the external buckets library,
`Put(key, value) → ok|error` in section 6. A failed write leaves the bucket
as it was. -/
def Bucket.Put (b : Bucket) (k v : Bytes) : Bucket × Option Bytes :=
  match b.faults.putErr k v with
  | some e => (b, some e)
  | none => ({ b with items := insertKey k v b.items }, none)

/-- Modelled from the spec: `Bucket.Delete` of the external buckets library,
`Delete(key) → ok|error` in section 6. A failed delete leaves the bucket as it
was; deleting an absent key succeeds. -/
def Bucket.Delete (b : Bucket) (k : Bytes) : Bucket × Option Bytes :=
  match b.faults.deleteErr k with
  | some e => (b, some e)
  | none => ({ b with items := removeKey k b.items }, none)

/-- Modelled from the spec: `Bucket.Items` of the external buckets library,
the scan of the whole bucket in ascending key order. -/
def Bucket.Items (b : Bucket) : List Item × Option Bytes :=
  match b.faults.itemsErr with
  | some e => ([], some e)
  | none => (b.items, none)

/-- Modelled from the spec: `Bucket.PrefixItems` of the external buckets
library, `ScanPrefix(prefix)` in section 6: the pairs whose key starts with
the given bytes, ascending, empty if none match. -/
def Bucket.PrefixItems (b : Bucket) (pre : Bytes) : List Item × Option Bytes :=
  match b.faults.scanErr pre with
  | some e => ([], some e)
  | none => (b.items.filter (fun it => hasPrefix it.Key pre), none)

/-! ## The resource envelope (`src/xhub.go`) -/

/-- A Resource models an experimental resource. `Data` is a
`json.RawMessage`, `none` standing for Go's `nil`. -/
structure Resource where
  Version : Bytes
  Type_ : Bytes
  ID : Bytes
  URL : Bytes
  Data : Option Bytes
  Created : Bytes
  Children : List Bytes
  deriving DecidableEq, Repr

/-- The zero value of `Resource` (`var study Resource`). -/
def Resource.zero : Resource :=
  { Version := [], Type_ := [], ID := [], URL := [], Data := none, Created := [],
    Children := [] }

/-! ## HTTP: request, route parameters, response writer -/

/-- What a handler reads of a request: the outcome of
`json.NewDecoder(r.Body).Decode(&x)`, the decoded value and the error. -/
structure Request where
  decoded : Resource
  decodeErr : Option Bytes

/-- The route parameters (`httprouter.Params`). -/
abbrev Params := List (String × Bytes)

/-- The value of the first parameter with the given name, the empty string
when there is none (`Params.ByName`). -/
def ByName : Params → String → Bytes
  | [], _ => []
  | (k, v) :: rest, name => if k = name then v else ByName rest name

/-- The state of an `http.ResponseWriter`: the header map, the status line
once it is written, and the body written so far. -/
structure ResponseWriter where
  header : List (String × String)
  status : Option Nat
  body : Bytes
  deriving DecidableEq, Repr

/-- A response nothing has been written to. -/
def ResponseWriter.fresh : ResponseWriter := { header := [], status := none, body := [] }

/-- The call `w.Header().Set(k, v)`. -/
def ResponseWriter.SetHeader (w : ResponseWriter) (k v : String) : ResponseWriter :=
  { w with header := (k, v) :: w.header.filter (fun kv => decide (kv.1 ≠ k)) }

/-- The call `w.WriteHeader(code)`: only the first call writes the status line, a
later one is superfluous and ignored. -/
def ResponseWriter.WriteHeader (w : ResponseWriter) (code : Nat) : ResponseWriter :=
  match w.status with
  | some _ => w
  | none => { w with status := some code }

/-- The call `w.Write(data)`: writes the status line with 200 when none is written
yet, then appends the bytes to the body. -/
def ResponseWriter.Write (w : ResponseWriter) (data : Bytes) : ResponseWriter :=
  let w1 := w.WriteHeader 200
  { w1 with body := w1.body ++ data }

/-- The call `http.Error(w, msg, code)`: sets the plain-text headers, writes the
status line and prints the message followed by a newline. -/
def httpError (w : ResponseWriter) (msg : Bytes) (code : Nat) : ResponseWriter :=
  let w1 := w.SetHeader "Content-Type" "text/plain; charset=utf-8"
  let w2 := w1.SetHeader "X-Content-Type-Options" "nosniff"
  let w3 := w2.WriteHeader code
  w3.Write (msg ++ ['\n'])

/-- The status the client receives: 200 when the handler returns without
having written a status line. -/
def ResponseWriter.code (w : ResponseWriter) : Nat := w.status.getD 200

/-- The functions of Go's standard library the handlers call, taken as
parameters: `jsonValid` is the validity check the encoder runs on a raw
message, `jsonEncode` is what `json.Encoder.Encode` writes for a list of
resources whose raw messages are valid, `quote` is the `%q` verb of `fmt`.
The empty input is not a JSON value (`unexpected end of JSON input`). -/
structure Lib where
  jsonValid : Bytes → Bool
  jsonEncode : List Resource → Bytes
  quote : Bytes → Bytes
  jsonValid_nil : jsonValid [] = false

/-- The call `json.NewEncoder(w).Encode(resources)`: the encoder marshals the
whole value before it writes; a raw message (`Data`) that is not `nil` and not
valid JSON makes the call return an error with nothing written to `w`. -/
def Encode (lib : Lib) (w : ResponseWriter) (resources : List Resource) :
    ResponseWriter × Option Bytes :=
  if resources.all (fun r =>
      match r.Data with
      | none => true
      | some d => lib.jsonValid d) then
    (w.Write (lib.jsonEncode resources), none)
  else (w, some "json: error calling MarshalJSON for type json.RawMessage".toList)

/-- The branch `if err != nil { http.Error(w, err.Error(), code) }` without a
return: the error is reported and the handler goes on. -/
def reportErr (w : ResponseWriter) (err : Option Bytes) (code : Nat) : ResponseWriter :=
  match err with
  | some e => httpError w e code
  | none => w

/-! ## The study controller (`src/studies.go`) -/

/-- This Controller handles requests for study resources. -/
structure StudyController where
  host : Bytes
  studies : Bucket
  studylist : Bucket

/-- The handler `post` for POST requests on `/studies`, creating/persisting a
new study resource. `now` is `time.Now().Format(time.RFC3339Nano)`. The
result of the write to `studylist` is dropped and the decoding error `err` is
tested a second time in its place, as in the source. -/
def StudyController.post (c : StudyController) (now : Bytes) (w : ResponseWriter)
    (r : Request) (_p : Params) : StudyController × ResponseWriter :=
  let study := r.decoded
  let err := r.decodeErr
  let w1 := reportErr w err 500
  let key := study.ID
  let studylist1 := (c.studylist.Put key now).1
  let w2 := reportErr w1 err 500
  let put := c.studies.Put key (study.Data.getD [])
  let w3 := reportErr w2 put.2 500
  let w4 := w3.SetHeader "Content-Type" "application/json"
  let w5 := w4.WriteHeader 201
  ({ c with studies := put.1, studylist := studylist1 }, w5)

/-- The loop of `list` over the studylist items: one resource per item, the
payload fetched from the studies bucket, an error of the fetch reported
without leaving the loop. -/
def StudyController.listLoop (c : StudyController) :
    List Item → ResponseWriter → List Resource → ResponseWriter × List Resource
  | [], w, resources => (w, resources)
  | study :: rest, w, resources =>
    let got := c.studies.Get study.Key
    let w1 := reportErr w got.2 500
    let id := study.Key
    let url := "http://".toList ++ c.host ++ id
    let rsc : Resource :=
      { Version := "1".toList
        Type_ := "study".toList
        ID := id
        URL := url
        Data := got.1
        Created := study.Value
        Children := [] }
    StudyController.listLoop c rest w1 (resources ++ [rsc])

/-- The handler `list` for GET requests on `/studies`, returning a list of
available studies. The error of `Encode` is dropped. -/
def StudyController.list (lib : Lib) (c : StudyController) (w : ResponseWriter)
    (_r : Request) (_p : Params) : StudyController × ResponseWriter :=
  let scan := c.studylist.Items
  let w1 := reportErr w scan.2 500
  let out := StudyController.listLoop c scan.1 w1 []
  let w2 := out.1.SetHeader "Content-Type" "application/json"
  let w3 := w2.WriteHeader 200
  (c, (Encode lib w3 out.2).1)

/-- The handler `get` for GET requests on `/studies/:name`, returning the raw
json data payload for the requested study name. -/
def StudyController.get (c : StudyController) (w : ResponseWriter)
    (_r : Request) (p : Params) : StudyController × ResponseWriter :=
  let name := ByName p "name"
  let key := "/studies/".toList ++ name
  let got := c.studies.Get key
  let w1 := reportErr w got.2 500
  let w2 := match got.1 with
    | none => httpError w1 "NOT FOUND".toList 404
    | some _ => w1
  let w3 := w2.SetHeader "Content-Type" "application/json"
  (c, w3.Write (got.1.getD []))

/-- The handler `delete` for DELETE requests on `/studies/:name`. -/
def StudyController.delete (c : StudyController) (w : ResponseWriter)
    (_r : Request) (p : Params) : StudyController × ResponseWriter :=
  let name := ByName p "name"
  let key := "/studies/".toList ++ name
  let del := c.studies.Delete key
  let w1 := reportErr w del.2 500
  let w2 := w1.SetHeader "Content-Type" "application/json"
  ({ c with studies := del.1 }, w2.WriteHeader 200)

/-! ## The trial controller (`src/trial.go`) -/

/-- A TrialController handles requests for trial resources. -/
structure TrialController where
  host : Bytes
  studies : Bucket

/-- The handler `Post` for POST requests on `/studies/:study/trials`, storing
the trial data sent. -/
def TrialController.Post (c : TrialController) (w : ResponseWriter)
    (r : Request) (_p : Params) : TrialController × ResponseWriter :=
  let trial := r.decoded
  match r.decodeErr with
  | some e => (c, httpError w e 500)
  | none =>
    let key := trial.ID
    match c.studies.Put key (trial.Data.getD []) with
    | (_, some e) => (c, httpError w e 500)
    | (studies1, none) => ({ c with studies := studies1 }, w.WriteHeader 201)

/-- The resource `List` builds for one scanned item. -/
def TrialController.resourceOf (c : TrialController) (trial : Item) : Resource :=
  let id := trial.Key
  let url := "http://".toList ++ c.host ++ id
  { Version := "1".toList
    Type_ := "trial".toList
    ID := id
    URL := url
    Data := some trial.Value
    Created := []
    Children := [] }

/-- The loop of `List`: append each item to the list of resources. -/
def TrialController.listLoop (c : TrialController) :
    List Item → List Resource → List Resource
  | [], resources => resources
  | trial :: rest, resources =>
    TrialController.listLoop c rest (resources ++ [TrialController.resourceOf c trial])

/-- The handler `Get` for GET requests on `/studies/:study/trials/:trial`,
returning the raw json data payload for the requested trial. -/
def TrialController.Get (c : TrialController) (w : ResponseWriter)
    (_r : Request) (p : Params) : TrialController × ResponseWriter :=
  let study := ByName p "study"
  let trial := ByName p "trial"
  let id := "/studies/".toList ++ study ++ "/trials/".toList ++ trial
  match c.studies.Get id with
  | (_, some e) => (c, httpError w e 500)
  | (none, none) => (c, httpError w (id ++ " not found".toList) 204)
  | (some data, none) =>
    let w1 := w.SetHeader "Content-Type" "application/json"
    (c, w1.Write data)

/-- The message `fmt.Sprintf("couldn't delete item %q: %v", item.Key, err)`. -/
def deleteMsg (lib : Lib) (key err : Bytes) : Bytes :=
  "couldn't delete item ".toList ++ lib.quote key ++ ": ".toList ++ err

/-- The message
`fmt.Sprintf("couldn't retrieve items with prefix %q: %v", pre, err)`. -/
def scanMsg (lib : Lib) (pre err : Bytes) : Bytes :=
  "couldn't retrieve items with prefix ".toList ++ lib.quote pre ++ ": ".toList ++ err

/-- The inner loop of `Delete`: delete every scanned item; a failed delete is
reported and the loop goes on with the next item. -/
def TrialController.deleteItems (lib : Lib) :
    List Item → Bucket → ResponseWriter → Bucket × ResponseWriter
  | [], b, w => (b, w)
  | item :: rest, b, w =>
    match b.Delete item.Key with
    | (b1, some e) =>
      TrialController.deleteItems lib rest b1 (httpError w (deleteMsg lib item.Key e) 500)
    | (b1, none) => TrialController.deleteItems lib rest b1 w

/-- The outer loop of `Delete` over the prefixes: scan, then delete the
matches; a failed scan is reported and the handler returns (the flag is
`true` when it did). -/
def TrialController.deletePrefixes (lib : Lib) :
    List Bytes → Bucket → ResponseWriter → Bucket × ResponseWriter × Bool
  | [], b, w => (b, w, false)
  | pre :: rest, b, w =>
    match b.PrefixItems pre with
    | (_, some e) => (b, httpError w (scanMsg lib pre e) 500, true)
    | (items, none) =>
      let out := TrialController.deleteItems lib items b w
      TrialController.deletePrefixes lib rest out.1 out.2

/-- The handler `Delete` for DELETE requests on
`/studies/:study/trials/:trial`, deleting all items from the studies bucket
that are associated with the specified study and trial. -/
def TrialController.Delete (lib : Lib) (c : TrialController) (w : ResponseWriter)
    (_r : Request) (p : Params) : TrialController × ResponseWriter :=
  let study := ByName p "study"
  let trial := ByName p "trial"
  let out := TrialController.deletePrefixes lib
    [ "/studies/".toList ++ study ++ "/trials/".toList ++ trial,
      "/files/".toList ++ study ++ "/".toList ++ trial ] c.studies w
  if out.2.2 then ({ c with studies := out.1 }, out.2.1)
  else
    let w1 := out.2.1.SetHeader "Content-Type" "application/json"
    ({ c with studies := out.1 }, w1.WriteHeader 200)

/-- The handler `List` for GET requests on `/studies/:study/trials`, returning
a list of available trials for a particular study. The error of `Encode` is
dropped. -/
def TrialController.List (lib : Lib) (c : TrialController) (w : ResponseWriter)
    (_r : Request) (p : Params) : TrialController × ResponseWriter :=
  let study := ByName p "study"
  let pfx := "/studies/".toList ++ study ++ "/trials".toList
  match c.studies.PrefixItems pfx with
  | (_, some e) => (c, httpError w e 500)
  | (items, none) =>
    let resources := TrialController.listLoop c items []
    let w1 := w.SetHeader "Content-Type" "application/json"
    (c, (Encode lib w1 resources).1)

/-- What the inner loop of `Delete` does to the response for one item: the
message of a failed delete is written, a successful delete writes nothing. -/
def reportDelete (lib : Lib) (f : Faults) (w : ResponseWriter) (item : Item) : ResponseWriter :=
  match f.deleteErr item.Key with
  | some e => httpError w (deleteMsg lib item.Key e) 500
  | none => w

/-! ## Concrete values used by the examples -/

/-- A request without a body (GET and DELETE). -/
def Request.none : Request := { decoded := Resource.zero, decodeErr := Option.none }

/-- A request whose body decodes to the resource with the given id and data. -/
def Request.of (id data : Bytes) : Request :=
  { decoded := { Resource.zero with ID := id, Data := some data }, decodeErr := Option.none }

/-! ## Go's standard library: `encoding/json` and the `%q` verb

The handlers call `json.Encoder.Encode` and `fmt.Sprintf` with `%q`. The
definitions below follow the library: the scanner of `encoding/json`
(`scanner.go`), its `compact`, the string encoding of the encoder, and
`strconv.Quote`. -/

/-- The white space of JSON (`isSpace` of the scanner). -/
def isSpace (c : Char) : Bool := c = ' ' || c = '\t' || c = '\r' || c = '\n'

/-- A decimal digit. -/
def isDigit (c : Char) : Bool := decide ('0' ≤ c) && decide (c ≤ '9')

/-- A hexadecimal digit, as the scanner accepts it after `\u`. -/
def isHex (c : Char) : Bool :=
  isDigit c || (decide ('a' ≤ c) && decide (c ≤ 'f')) || (decide ('A' ≤ c) && decide (c ≤ 'F'))

/-- What an open bracket of the scanner is waiting for (`parseObjectKey`,
`parseObjectValue`, `parseArrayValue`). -/
inductive ParseState where
  | objectKey
  | objectValue
  | arrayValue
  deriving DecidableEq, Repr

/-- The step function the scanner is in (`stateBeginValue`, `stateInString`,
`state0`, ... of `scanner.go`); `literal rest` stands for the states inside
`true`, `false` and `null`, with the characters still to come, and `endValue`
with no open bracket for `stateEndTop`. -/
inductive ScanStep where
  | beginValue
  | beginValueOrEmpty
  | beginStringOrEmpty
  | beginString
  | inString
  | inStringEsc
  | inStringEscU (left : Nat)
  | neg
  | zero
  | one
  | dot
  | dot0
  | e
  | eSign
  | e0
  | literal (rest : Bytes)
  | endValue
  deriving DecidableEq, Repr

/-- The scanner: the current step function and the stack of open brackets. -/
structure Scanner where
  step : ScanStep
  parseState : List ParseState
  deriving DecidableEq, Repr

/-- The scanner after `reset`. -/
def Scanner.reset : Scanner := { step := ScanStep.beginValue, parseState := [] }

/-- The step `stateEndValue`: after a value, the next character closes the
bracket, separates two members, or is white space; with no open bracket only
white space may follow (`stateEndTop`). The flag is `true` when the character
is skipped white space. -/
def stateEndValue (ps : List ParseState) (c : Char) : Option (Scanner × Bool) :=
  match ps with
  | [] => if isSpace c then some (⟨ScanStep.endValue, []⟩, true) else none
  | top :: below =>
    if isSpace c then some (⟨ScanStep.endValue, ps⟩, true)
    else
      match top with
      | ParseState.objectKey =>
        if c = ':' then some (⟨ScanStep.beginValue, ParseState.objectValue :: below⟩, false)
        else none
      | ParseState.objectValue =>
        if c = ',' then some (⟨ScanStep.beginString, ParseState.objectKey :: below⟩, false)
        else if c = '}' then some (⟨ScanStep.endValue, below⟩, false)
        else none
      | ParseState.arrayValue =>
        if c = ',' then some (⟨ScanStep.beginValue, ps⟩, false)
        else if c = ']' then some (⟨ScanStep.endValue, below⟩, false)
        else none

/-- The step `stateBeginValue`: the first character of a value. -/
def stateBeginValue (here : ScanStep) (ps : List ParseState) (c : Char) :
    Option (Scanner × Bool) :=
  if isSpace c then some (⟨here, ps⟩, true)
  else if c = '{' then some (⟨ScanStep.beginStringOrEmpty, ParseState.objectKey :: ps⟩, false)
  else if c = '[' then some (⟨ScanStep.beginValueOrEmpty, ParseState.arrayValue :: ps⟩, false)
  else if c = '"' then some (⟨ScanStep.inString, ps⟩, false)
  else if c = '-' then some (⟨ScanStep.neg, ps⟩, false)
  else if c = '0' then some (⟨ScanStep.zero, ps⟩, false)
  else if c = 't' then some (⟨ScanStep.literal "rue".toList, ps⟩, false)
  else if c = 'f' then some (⟨ScanStep.literal "alse".toList, ps⟩, false)
  else if c = 'n' then some (⟨ScanStep.literal "ull".toList, ps⟩, false)
  else if isDigit c then some (⟨ScanStep.one, ps⟩, false)
  else none

/-- The step `state0`: after the integer part of a number. -/
def state0 (ps : List ParseState) (c : Char) : Option (Scanner × Bool) :=
  if c = '.' then some (⟨ScanStep.dot, ps⟩, false)
  else if c = 'e' || c = 'E' then some (⟨ScanStep.e, ps⟩, false)
  else stateEndValue ps c

/-- The step `stateESign`: the first digit of an exponent. -/
def stateESign (ps : List ParseState) (c : Char) : Option (Scanner × Bool) :=
  if isDigit c then some (⟨ScanStep.e0, ps⟩, false) else none

/-- One call `scan.step(scan, c)`: the scanner after the character `c` and
whether `c` is skipped white space (`scanSkipSpace`), `none` for `scanError`. -/
def Scanner.next (s : Scanner) (c : Char) : Option (Scanner × Bool) :=
  let ps := s.parseState
  match s.step with
  | ScanStep.beginValue => stateBeginValue ScanStep.beginValue ps c
  | ScanStep.beginValueOrEmpty =>
    if isSpace c then some (s, true)
    else if c = ']' then stateEndValue ps c
    else stateBeginValue ScanStep.beginValue ps c
  | ScanStep.beginStringOrEmpty =>
    if isSpace c then some (s, true)
    else if c = '}' then stateEndValue (ParseState.objectValue :: ps.tail) c
    else if c = '"' then some (⟨ScanStep.inString, ps⟩, false)
    else none
  | ScanStep.beginString =>
    if isSpace c then some (s, true)
    else if c = '"' then some (⟨ScanStep.inString, ps⟩, false)
    else none
  | ScanStep.inString =>
    if c = '"' then some (⟨ScanStep.endValue, ps⟩, false)
    else if c = '\\' then some (⟨ScanStep.inStringEsc, ps⟩, false)
    else if c.toNat < 32 then none
    else some (s, false)
  | ScanStep.inStringEsc =>
    if c = 'b' || c = 'f' || c = 'n' || c = 'r' || c = 't' || c = '\\' || c = '/' || c = '"'
    then some (⟨ScanStep.inString, ps⟩, false)
    else if c = 'u' then some (⟨ScanStep.inStringEscU 4, ps⟩, false)
    else none
  | ScanStep.inStringEscU left =>
    if isHex c then
      some (⟨if left ≤ 1 then ScanStep.inString else ScanStep.inStringEscU (left - 1), ps⟩, false)
    else none
  | ScanStep.neg =>
    if c = '0' then some (⟨ScanStep.zero, ps⟩, false)
    else if isDigit c then some (⟨ScanStep.one, ps⟩, false)
    else none
  | ScanStep.one => if isDigit c then some (s, false) else state0 ps c
  | ScanStep.zero => state0 ps c
  | ScanStep.dot => if isDigit c then some (⟨ScanStep.dot0, ps⟩, false) else none
  | ScanStep.dot0 =>
    if isDigit c then some (s, false)
    else if c = 'e' || c = 'E' then some (⟨ScanStep.e, ps⟩, false)
    else stateEndValue ps c
  | ScanStep.e =>
    if c = '+' || c = '-' then some (⟨ScanStep.eSign, ps⟩, false) else stateESign ps c
  | ScanStep.eSign => stateESign ps c
  | ScanStep.e0 => if isDigit c then some (s, false) else stateEndValue ps c
  | ScanStep.literal rest =>
    match rest with
    | [] => none
    | x :: more =>
      if c = x then
        some (⟨if more = [] then ScanStep.endValue else ScanStep.literal more, ps⟩, false)
      else none
  | ScanStep.endValue => stateEndValue ps c

/-- The call `scan.eof()`: the input is complete when the scanner is at the
end of the top-level value, if need be after one more space. -/
def Scanner.eof (s : Scanner) : Bool :=
  match s.next ' ' with
  | some (s1, _) => decide (s1.step = ScanStep.endValue) && s1.parseState.isEmpty
  | none => false

/-- The scanner after the characters of `data`, `none` after a `scanError`. -/
def scanAll : Scanner → Bytes → Option Scanner
  | s, [] => some s
  | s, c :: rest =>
    match s.next c with
    | some (s1, _) => scanAll s1 rest
    | none => none

/-- The check `checkValid(data, scan) == nil`, that is `json.Valid(data)`. -/
def checkValid (data : Bytes) : Bool :=
  match scanAll Scanner.reset data with
  | some s => s.eof
  | none => false

/-- The hexadecimal digit of a number below 16, in lower case. -/
def hexDigit (n : Nat) : Char := ("0123456789abcdef".toList).getD n '0'

/-- The escape `\u00XX` the encoder writes for a character below 256. -/
def escapeU00 (c : Char) : Bytes :=
  ['\\', 'u', '0', '0', hexDigit (c.toNat / 16), hexDigit (c.toNat % 16)]

/-- The loop of `compact(dst, src, true)` on valid JSON: white space between
the tokens is dropped and `<`, `>`, `&` and the line separators U+2028 and
U+2029 are escaped. -/
def compactLoop : Scanner → Bytes → Bytes
  | _, [] => []
  | s, c :: rest =>
    match s.next c with
    | none => []
    | some (s1, skip) =>
      let out : Bytes :=
        if c = '<' || c = '>' || c = '&' then escapeU00 c
        else if c.toNat = 8232 || c.toNat = 8233 then
          ['\\', 'u', '2', '0', '2', hexDigit (c.toNat % 16)]
        else if skip then []
        else [c]
      out ++ compactLoop s1 rest

/-- The compact form of a valid raw message. -/
def jsonCompact (data : Bytes) : Bytes := compactLoop Scanner.reset data

/-- The encoding of one character of a Go string by the encoder (with the
escaping of HTML characters, which `Encoder` has on). -/
def jsonChar (c : Char) : Bytes :=
  if c = '"' || c = '\\' then ['\\', c]
  else if c.toNat = 8 then ['\\', 'b']
  else if c.toNat = 12 then ['\\', 'f']
  else if c = '\n' then ['\\', 'n']
  else if c = '\r' then ['\\', 'r']
  else if c = '\t' then ['\\', 't']
  else if c.toNat < 32 || c = '<' || c = '>' || c = '&' then escapeU00 c
  else if c.toNat = 8232 || c.toNat = 8233 then
    ['\\', 'u', '2', '0', '2', hexDigit (c.toNat % 16)]
  else [c]

/-- The encoding of a Go string. -/
def jsonString (s : Bytes) : Bytes := ['"'] ++ (s.map jsonChar).flatten ++ ['"']

/-- The elements of a JSON array or the members of an object, separated by
commas. -/
def commaJoin : List Bytes → Bytes
  | [] => []
  | [x] => x
  | x :: y :: rest => x ++ [','] ++ commaJoin (y :: rest)

/-- The encoding of one `Resource`, by the tags of its fields in
`src/xhub.go`: `created` and `children` are left out when empty, a `nil` raw
message is written `null`. -/
def jsonResource (r : Resource) : Bytes :=
  "\x7b\"version\":".toList ++ jsonString r.Version ++
  ",\"resource\":".toList ++ jsonString r.Type_ ++
  ",\"id\":".toList ++ jsonString r.ID ++
  ",\"url\":".toList ++ jsonString r.URL ++
  ",\"data\":".toList ++
    (match r.Data with
     | none => "null".toList
     | some d => jsonCompact d) ++
  (if r.Created = [] then [] else ",\"created\":".toList ++ jsonString r.Created) ++
  (if r.Children = [] then []
   else ",\"children\":[".toList ++ commaJoin (r.Children.map jsonString) ++ "]".toList) ++
  "\x7d".toList

/-- What `Encode` writes for a list of resources whose raw messages are valid:
the array of the encoded resources and a newline. -/
def jsonResources (rs : List Resource) : Bytes :=
  "[".toList ++ commaJoin (rs.map jsonResource) ++ "]\n".toList

/-- The quoting of one character by `strconv.Quote`. A character above the
ASCII range is written as it is, as the library does for the printable ones. -/
def quoteChar (c : Char) : Bytes :=
  if c = '"' || c = '\\' then ['\\', c]
  else if decide (32 ≤ c.toNat) && decide (c.toNat < 127) then [c]
  else if c.toNat = 7 then ['\\', 'a']
  else if c.toNat = 8 then ['\\', 'b']
  else if c.toNat = 12 then ['\\', 'f']
  else if c = '\n' then ['\\', 'n']
  else if c = '\r' then ['\\', 'r']
  else if c = '\t' then ['\\', 't']
  else if c.toNat = 11 then ['\\', 'v']
  else if c.toNat < 128 then ['\\', 'x', hexDigit (c.toNat / 16), hexDigit (c.toNat % 16)]
  else [c]

/-- The verb `%q` on a byte string: `strconv.Quote`. -/
def strconvQuote (s : Bytes) : Bytes := ['"'] ++ (s.map quoteChar).flatten ++ ['"']

/-- The library of the examples: the functions as Go implements them. -/
def Lib.demo : Lib :=
  { jsonValid := checkValid
    jsonEncode := jsonResources
    quote := strconvQuote
    jsonValid_nil := by decide }

/-- An item given by two string literals. -/
def kv (k v : String) : Item := ⟨k.toList, v.toList⟩

/-- A bucket with the given items on a store that never fails. -/
def Bucket.of (items : List Item) : Bucket := { items := items, faults := Faults.never }

/-- The host of the examples. -/
def demoHost : Bytes := "localhost:8081".toList

/-- Trial `T1` of study `S1` with one trial-scoped file. -/
def trialWithFile : TrialController :=
  { host := demoHost
    studies := Bucket.of [kv "/files/S1/T1/F1" "f1", kv "/studies/S1/trials/T1" "t1"] }

/-- Trials `T1` and `T10` of study `S1`, and one file of `T10`. -/
def trialSiblings : TrialController :=
  { host := demoHost
    studies := Bucket.of [kv "/files/S1/T10/F1" "f10", kv "/studies/S1/trials/T1" "t1",
      kv "/studies/S1/trials/T10" "t10"] }

/-- One trial-scoped file of `(S1, T1)` and one study-scoped file of `S1`. -/
def twoFiles : TrialController :=
  { host := demoHost
    studies := Bucket.of [kv "/files/S1/T1/F1" "a", kv "/studies/S1/files/F1" "b"] }

/-- The store of `trialWithFile`, on which the delete of the trial key fails. -/
def trialLocked : TrialController :=
  { host := demoHost
    studies :=
      { items := [kv "/files/S1/T1/F1" "f1", kv "/studies/S1/trials/T1" "t1"]
        faults := { Faults.never with
          deleteErr := fun k =>
            if k = "/studies/S1/trials/T1".toList then some "locked".toList else none } } }

/-- A study controller with empty buckets on a store that never fails. -/
def StudyController.init (host : Bytes) : StudyController :=
  { host := host, studies := Bucket.empty, studylist := Bucket.empty }

/-- A sequence of study posts, each given by its time stamp and its decoded
body, handled one after the other. -/
def StudyController.posts (c : StudyController) : List (Bytes × Resource) → StudyController
  | [] => c
  | (now, body) :: rest =>
    StudyController.posts
      (StudyController.post c now ResponseWriter.fresh ⟨body, none⟩ []).1 rest

/-- Study `S1` with one trial and one study-scoped file as descendants. -/
def studyWithTrial : StudyController :=
  { host := demoHost
    studies := Bucket.of [kv "/studies/S1" "s1", kv "/studies/S1/files/F1" "f1",
      kv "/studies/S1/trials/T1" "t1"]
    studylist := Bucket.of [kv "/studies/S1" "2015-01-01T00:00:00Z"] }

/-- Study `S1` posted at time `t0` to empty buckets on a store that never
fails. -/
def postedS1 : StudyController :=
  (StudyController.post (StudyController.init demoHost) "t0".toList ResponseWriter.fresh
    (Request.of "/studies/S1".toList "d".toList) []).1

/-- The state of `postedS1` after the `delete` handler has run for `S1`. -/
def deletedS1 : StudyController :=
  (StudyController.delete postedS1 ResponseWriter.fresh Request.none
    [("name", "S1".toList)]).1

/-- A study controller whose creation index cannot be written. -/
def indexReadOnly : StudyController :=
  { host := demoHost
    studies := Bucket.empty
    studylist :=
      { items := []
        faults := { Faults.never with putErr := fun _ _ => some "read-only".toList } } }

/-- A body that decodes to the trial `T1` of study `S1` without data. -/
def trialNoData : Request :=
  { decoded := { Resource.zero with ID := "/studies/S1/trials/T1".toList }
    decodeErr := Option.none }

/-- The trial controller after `trialNoData` is posted to an empty bucket on a
store that never fails. -/
def trialPostedNoData : TrialController :=
  (TrialController.Post ⟨demoHost, Bucket.empty⟩ ResponseWriter.fresh trialNoData []).1

/-- A body that decodes to the study `S1` without data. -/
def studyNoData : Request :=
  { decoded := { Resource.zero with ID := "/studies/S1".toList }
    decodeErr := Option.none }

/-- The study controller after `studyNoData` is posted at time `t0` to empty
buckets on a store that never fails. -/
def studyPostedNoData : StudyController :=
  (StudyController.post (StudyController.init demoHost) "t0".toList ResponseWriter.fresh
    studyNoData []).1

/-! ## The key order -/

theorem bytesLt_irrefl (a : Bytes) : bytesLt a a = false := by
  induction a with
  | nil => rfl
  | cons x xs ih => simp [bytesLt, ih]

theorem bytesLt_trans : ∀ (a b c : Bytes), bytesLt a b = true → bytesLt b c = true →
    bytesLt a c = true
  | [], [], _, h, _ => by simp [bytesLt] at h
  | [], _ :: _, [], _, h => by simp [bytesLt] at h
  | [], _ :: _, _ :: _, _, _ => by simp [bytesLt]
  | _ :: _, [], _, h, _ => by simp [bytesLt] at h
  | _ :: _, _ :: _, [], _, h => by simp [bytesLt] at h
  | x :: xs, y :: ys, z :: zs, h1, h2 => by
    simp only [bytesLt] at h1 h2 ⊢
    by_cases hxy : x < y
    · by_cases hyz : y < z
      · simp [lt_trans hxy hyz]
      · simp only [hyz, if_false] at h2
        by_cases e : y = z
        · subst e; simp [hxy]
        · simp [e] at h2
    · simp only [hxy, if_false] at h1
      by_cases e : x = y
      · subst e
        simp only [if_true] at h1
        by_cases hyz : x < z
        · simp [hyz]
        · simp only [hyz, if_false] at h2 ⊢
          by_cases e2 : x = z
          · subst e2
            simp only [if_true] at h2 ⊢
            exact bytesLt_trans xs ys zs h1 h2
          · simp [e2] at h2
      · simp [e] at h1

theorem bytesLt_total : ∀ (a b : Bytes), bytesLt a b = false → a ≠ b → bytesLt b a = true
  | [], [], _, h => absurd rfl h
  | [], _ :: _, h, _ => by simp [bytesLt] at h
  | _ :: _, [], _, _ => by simp [bytesLt]
  | x :: xs, y :: ys, h, hne => by
    simp only [bytesLt] at h ⊢
    by_cases hxy : x < y
    · simp [hxy] at h
    · simp only [hxy, if_false] at h
      by_cases e : x = y
      · subst e
        simp only [if_true] at h
        have hne2 : xs ≠ ys := fun e => hne (by rw [e])
        simp [bytesLt_total xs ys h hne2]
      · have : y < x := lt_of_le_of_ne (not_lt.mp hxy) (fun e2 => e e2.symm)
        simp [this]

/-! ## The store operations -/

theorem lookupKey_eq_none {k : Bytes} {l : List Item} :
    lookupKey k l = none ↔ ∀ it ∈ l, it.Key ≠ k := by
  induction l with
  | nil => simp [lookupKey]
  | cons x xs ih =>
    by_cases h : x.Key = k
    · simp [lookupKey, h]
    · simp [lookupKey, h, ih]

theorem lookupKey_mem {k v : Bytes} {l : List Item} (h : lookupKey k l = some v) :
    (⟨k, v⟩ : Item) ∈ l := by
  induction l with
  | nil => simp [lookupKey] at h
  | cons x xs ih =>
    by_cases hx : x.Key = k
    · simp [lookupKey, hx] at h
      cases x
      simp at hx
      simp [← hx, ← h]
    · simp [lookupKey, hx] at h
      exact List.mem_cons_of_mem _ (ih h)

theorem lookupKey_filter {k : Bytes} {p : Item → Bool} {l : List Item}
    (h : ∀ it ∈ l, it.Key = k → p it = true) :
    lookupKey k (l.filter p) = lookupKey k l := by
  induction l with
  | nil => rfl
  | cons x xs ih =>
    have ih2 := ih (fun it hit => h it (List.mem_cons_of_mem _ hit))
    by_cases hx : x.Key = k
    · have hp := h x (List.mem_cons_self _ _) hx
      simp [List.filter, hp, lookupKey, hx]
    · cases hp : p x
      · simp [List.filter, hp, lookupKey, hx, ih2]
      · simp [List.filter, hp, lookupKey, hx, ih2]

theorem lookupKey_insertKey_self (k v : Bytes) (l : List Item) :
    lookupKey k (insertKey k v l) = some v := by
  induction l with
  | nil => simp [insertKey, lookupKey]
  | cons x xs ih =>
    simp only [insertKey]
    split
    · simp [lookupKey]
    · split
      · simp [lookupKey]
      · rename_i h1 h2
        have : x.Key ≠ k := fun e => h2 e.symm
        simp [lookupKey, this, ih]

theorem lookupKey_insertKey_ne {k k1 : Bytes} (v : Bytes) (l : List Item) (h : k1 ≠ k) :
    lookupKey k1 (insertKey k v l) = lookupKey k1 l := by
  have hk : k ≠ k1 := fun e => h e.symm
  induction l with
  | nil => simp [insertKey, lookupKey, hk]
  | cons x xs ih =>
    simp only [insertKey]
    split
    · simp [lookupKey, hk]
    · split
      · rename_i h1 h2
        have : x.Key ≠ k1 := fun e => hk (h2.trans e)
        simp [lookupKey, hk, this]
      · by_cases hx : x.Key = k1
        · simp [lookupKey, hx]
        · simp [lookupKey, hx, ih]

theorem lookupKey_removeKey_self (k : Bytes) (l : List Item) :
    lookupKey k (removeKey k l) = none := by
  rw [lookupKey_eq_none]
  intro it hit
  simp [removeKey] at hit
  exact hit.2

theorem lookupKey_removeKey_ne {k k1 : Bytes} (l : List Item) (h : k1 ≠ k) :
    lookupKey k1 (removeKey k l) = lookupKey k1 l := by
  apply lookupKey_filter
  intro it _ hk
  simp [hk, h]

theorem mem_insertKey {k v : Bytes} {l : List Item} {it : Item} (h : it ∈ insertKey k v l) :
    it = ⟨k, v⟩ ∨ it ∈ l := by
  induction l with
  | nil => simpa [insertKey] using h
  | cons x xs ih =>
    simp only [insertKey] at h
    split at h
    · simpa using h
    · split at h
      · rcases List.mem_cons.mp h with h | h
        · exact Or.inl h
        · exact Or.inr (List.mem_cons_of_mem _ h)
      · rcases List.mem_cons.mp h with h | h
        · exact Or.inr (h ▸ List.mem_cons_self _ _)
        · rcases ih h with h | h
          · exact Or.inl h
          · exact Or.inr (List.mem_cons_of_mem _ h)

theorem insertKey_pairwise {k v : Bytes} {l : List Item}
    (h : l.Pairwise (fun x y => bytesLt x.Key y.Key = true)) :
    (insertKey k v l).Pairwise (fun x y => bytesLt x.Key y.Key = true) := by
  induction l with
  | nil => simp [insertKey]
  | cons x xs ih =>
    rw [List.pairwise_cons] at h
    simp only [insertKey]
    split
    · rename_i hlt
      refine List.pairwise_cons.mpr ⟨?_, List.pairwise_cons.mpr h⟩
      intro y hy
      rcases List.mem_cons.mp hy with hy | hy
      · rw [hy]; exact hlt
      · exact bytesLt_trans _ _ _ hlt (h.1 y hy)
    · split
      · rename_i h1 h2
        refine List.pairwise_cons.mpr ⟨?_, h.2⟩
        intro y hy
        have := h.1 y hy
        rw [← h2] at this
        exact this
      · rename_i h1 h2
        refine List.pairwise_cons.mpr ⟨?_, ih h.2⟩
        intro y hy
        rcases mem_insertKey hy with hy | hy
        · rw [hy]
          exact bytesLt_total _ _ (by simpa using h1) h2
        · exact h.1 y hy

theorem pairwise_key_unique {l : List Item}
    (h : l.Pairwise (fun x y => bytesLt x.Key y.Key = true)) {a b : Item}
    (ha : a ∈ l) (hb : b ∈ l) (hk : a.Key = b.Key) : a = b := by
  induction l with
  | nil => simp at ha
  | cons x xs ih =>
    rw [List.pairwise_cons] at h
    rcases List.mem_cons.mp ha with ha | ha <;> rcases List.mem_cons.mp hb with hb | hb
    · rw [ha, hb]
    · have := h.1 b hb
      rw [← ha, hk, bytesLt_irrefl] at this
      cases this
    · have := h.1 a ha
      rw [← hb, hk, bytesLt_irrefl] at this
      cases this
    · exact ih h.2 ha hb

theorem lookupKey_of_mem {l : List Item}
    (h : l.Pairwise (fun x y => bytesLt x.Key y.Key = true)) {it : Item} (hit : it ∈ l) :
    lookupKey it.Key l = some it.Value := by
  cases hl : lookupKey it.Key l with
  | none => exact absurd rfl (lookupKey_eq_none.mp hl it hit)
  | some v =>
    have := pairwise_key_unique h (lookupKey_mem hl) hit rfl
    rw [← this]

/-! ## The response writer -/

theorem httpError_status (w : ResponseWriter) (msg : Bytes) (code : Nat) :
    (httpError w msg code).status = some (w.status.getD code) := by
  cases h : w.status <;>
    simp [httpError, ResponseWriter.Write, ResponseWriter.WriteHeader,
      ResponseWriter.SetHeader, h]

theorem httpError_body (w : ResponseWriter) (msg : Bytes) (code : Nat) :
    (httpError w msg code).body = w.body ++ (msg ++ ['\n']) := by
  cases h : w.status <;>
    simp [httpError, ResponseWriter.Write, ResponseWriter.WriteHeader,
      ResponseWriter.SetHeader, h]

/-! ## Key shapes -/

theorem hasPrefix_append (a x y : Bytes) : hasPrefix (a ++ x) (a ++ y) = hasPrefix x y := by
  induction a with
  | nil => rfl
  | cons c cs ih =>
    simp only [hasPrefix] at ih
    simp [hasPrefix, List.isPrefixOf, ih]

/-- No key under `/studies/` starts with `/files/`. -/
theorem hasPrefix_studies_files (x y : Bytes) :
    hasPrefix ("/studies/".toList ++ x) ("/files/".toList ++ y) = false := by
  simp [hasPrefix, List.isPrefixOf]

/-- A key starts with at most one of the two prefixes `Delete` scans. -/
theorem hasPrefix_disjoint (k x y : Bytes)
    (h : hasPrefix k ("/studies/".toList ++ x) = true) :
    hasPrefix k ("/files/".toList ++ y) = false := by
  match k, h with
  | [], h => simp [hasPrefix, List.isPrefixOf] at h
  | [_], h => simp [hasPrefix, List.isPrefixOf] at h
  | c1 :: c2 :: rest, h =>
    simp [hasPrefix, List.isPrefixOf] at h
    simp [hasPrefix, List.isPrefixOf]
    intro _ h2
    rw [← h.2.1] at h2
    exact absurd h2 (by decide)

/-- Two path segments without a slash that are both followed by a slash at the
start of the same key are equal. -/
theorem segment_eq : ∀ (s s1 a b : Bytes), '/' ∉ s → '/' ∉ s1 →
    hasPrefix (s1 ++ '/' :: b) (s ++ '/' :: a) = true → s = s1
  | [], [], _, _, _, _, _ => rfl
  | [], c :: cs, a, b, _, h1, h => by
    simp [hasPrefix, List.isPrefixOf] at h
    simp [← h.1] at h1
  | c :: cs, [], a, b, h0, _, h => by
    simp [hasPrefix, List.isPrefixOf] at h
    simp [h.1] at h0
  | c :: cs, d :: ds, a, b, h0, h1, h => by
    simp [hasPrefix, List.isPrefixOf] at h
    simp at h0 h1
    have := segment_eq cs ds a b (by simpa using h0.2) (by simpa using h1.2)
      (by simpa [hasPrefix] using h.2)
    rw [h.1, this]

/-! ## The loops of the trial `Delete` handler -/

theorem deleteItems_fst (lib : Lib) (its : List Item) (b : Bucket) (w : ResponseWriter) :
    (TrialController.deleteItems lib its b w).1 =
      { b with items := b.items.filter (fun x =>
          !(its.any (fun i => decide (i.Key = x.Key)) && (b.faults.deleteErr x.Key).isNone)) } := by
  induction its generalizing b w with
  | nil => simp [TrialController.deleteItems]
  | cons i rest ih =>
    cases h : b.faults.deleteErr i.Key with
    | none =>
      simp only [TrialController.deleteItems, Bucket.Delete, h]
      rw [ih]
      simp only [removeKey, List.filter_filter]
      congr 1
      apply List.filter_congr
      intro x _
      by_cases hx : i.Key = x.Key
      · have h3 := h
        rw [hx] at h3
        simp [hx, h3]
      · have hx2 : ¬ x.Key = i.Key := fun e => hx e.symm
        simp [hx, hx2]
    | some e =>
      simp only [TrialController.deleteItems, Bucket.Delete, h]
      rw [ih]
      congr 1
      apply List.filter_congr
      intro x _
      by_cases hx : i.Key = x.Key
      · have h3 := h
        rw [hx] at h3
        simp [hx, h3]
      · simp [hx]

theorem deleteItems_snd (lib : Lib) (its : List Item) (b : Bucket) (w : ResponseWriter) :
    (TrialController.deleteItems lib its b w).2 = its.foldl (reportDelete lib b.faults) w := by
  induction its generalizing b w with
  | nil => simp [TrialController.deleteItems]
  | cons i rest ih =>
    cases h : b.faults.deleteErr i.Key with
    | none =>
      simp only [TrialController.deleteItems, Bucket.Delete, h, List.foldl_cons]
      rw [ih]
      simp [reportDelete, h]
    | some e =>
      simp only [TrialController.deleteItems, Bucket.Delete, h, List.foldl_cons]
      rw [ih]
      simp [reportDelete, h]

theorem reportDelete_mono (lib : Lib) (f : Faults) (m : List Item) (w : ResponseWriter) :
    ∃ rest, (m.foldl (reportDelete lib f) w).body = w.body ++ rest ∧
      ∀ c, w.status = some c → (m.foldl (reportDelete lib f) w).status = some c := by
  induction m generalizing w with
  | nil => exact ⟨[], by simp, fun c h => by simpa using h⟩
  | cons i m ih =>
    simp only [List.foldl_cons]
    obtain ⟨rest, hb, hs⟩ := ih (reportDelete lib f w i)
    cases h : f.deleteErr i.Key with
    | none =>
      have e : reportDelete lib f w i = w := by simp [reportDelete, h]
      rw [e] at hb hs ⊢
      exact ⟨rest, hb, hs⟩
    | some err =>
      have e : reportDelete lib f w i = httpError w (deleteMsg lib i.Key err) 500 := by
        simp [reportDelete, h]
      rw [e] at hb hs ⊢
      refine ⟨(deleteMsg lib i.Key err ++ ['\n']) ++ rest, ?_, ?_⟩
      · rw [hb, httpError_body, List.append_assoc]
      · intro c hc
        apply hs
        rw [httpError_status, hc]
        rfl

theorem reportDelete_first (lib : Lib) (f : Faults) (m : List Item) (w : ResponseWriter)
    (it0 : Item) (h : m.find? (fun it => (f.deleteErr it.Key).isSome) = some it0) :
    ∃ e rest, f.deleteErr it0.Key = some e ∧
      (m.foldl (reportDelete lib f) w).body =
        w.body ++ (deleteMsg lib it0.Key e ++ ['\n']) ++ rest ∧
      (m.foldl (reportDelete lib f) w).status = some (w.status.getD 500) := by
  induction m generalizing w with
  | nil => simp at h
  | cons i m ih =>
    simp only [List.foldl_cons]
    cases hi : f.deleteErr i.Key with
    | none =>
      have e : reportDelete lib f w i = w := by simp [reportDelete, hi]
      rw [e]
      apply ih
      simpa [List.find?, hi] using h
    | some err =>
      have e : reportDelete lib f w i = httpError w (deleteMsg lib i.Key err) 500 := by
        simp [reportDelete, hi]
      have h0 : i = it0 := by simpa [List.find?, hi] using h
      subst h0
      rw [e]
      obtain ⟨rest, hb, hs⟩ := reportDelete_mono lib f m (httpError w (deleteMsg lib i.Key err) 500)
      refine ⟨err, rest, hi, ?_, ?_⟩
      · rw [hb, httpError_body]
      · exact hs _ (httpError_status _ _ _)

/-- A key that starts with none of the scanned prefixes keeps its value,
whatever the store answers. -/
theorem deletePrefixes_frame (lib : Lib) (pres : List Bytes) (b : Bucket) (w : ResponseWriter)
    (k : Bytes) (hk : ∀ pre ∈ pres, hasPrefix k pre = false) :
    lookupKey k (TrialController.deletePrefixes lib pres b w).1.items = lookupKey k b.items := by
  induction pres generalizing b w with
  | nil => rfl
  | cons pre rest ih =>
    cases h : b.faults.scanErr pre with
    | some e => simp [TrialController.deletePrefixes, Bucket.PrefixItems, h]
    | none =>
      simp only [TrialController.deletePrefixes, Bucket.PrefixItems, h]
      rw [ih _ _ (fun p hp => hk p (List.mem_cons_of_mem _ hp)), deleteItems_fst]
      apply lookupKey_filter
      intro it _ hit
      have hpre := hk pre (List.mem_cons_self _ _)
      have : (List.filter (fun it => hasPrefix it.Key pre) b.items).any
          (fun i => decide (i.Key = it.Key)) = false := by
        rw [List.any_eq_false]
        intro i hi
        simp only [List.mem_filter] at hi
        intro e
        simp only [decide_eq_true_eq] at e
        rw [e, hit, hpre] at hi
        exact absurd hi.2 (by simp)
      simp [this]

/-- With both scans succeeding, the two loops of `Delete` leave the store
without the matched keys whose delete succeeded and report the failed deletes
in scan order. -/
theorem deletePrefixes_two (lib : Lib) (p1 p2 : Bytes) (b : Bucket) (w : ResponseWriter)
    (hdis : ∀ k, hasPrefix k p1 = true → hasPrefix k p2 = false)
    (h1 : b.faults.scanErr p1 = none) (h2 : b.faults.scanErr p2 = none) :
    TrialController.deletePrefixes lib [p1, p2] b w =
      ({ b with items := b.items.filter (fun x =>
          !((hasPrefix x.Key p1 || hasPrefix x.Key p2) && (b.faults.deleteErr x.Key).isNone)) },
       (b.items.filter (fun it => hasPrefix it.Key p1) ++
          b.items.filter (fun it => hasPrefix it.Key p2)).foldl (reportDelete lib b.faults) w,
       false) := by
  have key : ∀ (p : Bytes) (x : Item), x ∈ b.items →
      (List.filter (fun it => hasPrefix it.Key p) b.items).any
        (fun i => decide (i.Key = x.Key)) = hasPrefix x.Key p := by
    intro p x hx
    cases hp : hasPrefix x.Key p
    · rw [List.any_eq_false]
      intro i hi
      simp only [List.mem_filter] at hi
      intro e
      simp only [decide_eq_true_eq] at e
      rw [e, hp] at hi
      exact absurd hi.2 (by simp)
    · rw [List.any_eq_true]
      exact ⟨x, List.mem_filter.mpr ⟨hx, hp⟩, by simp⟩
  have e1 : b.items.filter (fun x =>
      !((List.filter (fun it => hasPrefix it.Key p1) b.items).any
        (fun i => decide (i.Key = x.Key)) && (b.faults.deleteErr x.Key).isNone)) =
      b.items.filter (fun x => !(hasPrefix x.Key p1 && (b.faults.deleteErr x.Key).isNone)) := by
    apply List.filter_congr
    intro x hx
    rw [key p1 x hx]
  have e2 : (b.items.filter (fun x =>
      !(hasPrefix x.Key p1 && (b.faults.deleteErr x.Key).isNone))).filter
        (fun it => hasPrefix it.Key p2) = b.items.filter (fun it => hasPrefix it.Key p2) := by
    rw [List.filter_filter]
    apply List.filter_congr
    intro x _
    cases hp : hasPrefix x.Key p1
    · simp
    · simp [hdis _ hp]
  simp only [TrialController.deletePrefixes, Bucket.PrefixItems, h1, h2, deleteItems_fst,
    deleteItems_snd, e1, e2, List.foldl_append, List.filter_filter]
  refine Prod.ext ?_ rfl
  simp only
  congr 1
  apply List.filter_congr
  intro x hx
  have hany : (List.filter (fun it => hasPrefix it.Key p2) b.items).any
      (fun i => decide (i.Key = x.Key)) = hasPrefix x.Key p2 := key p2 x hx
  rw [hany]
  cases hasPrefix x.Key p1 <;> cases hasPrefix x.Key p2 <;>
    cases (b.faults.deleteErr x.Key).isNone <;> rfl

theorem hasPrefix_of_append {k a b : Bytes} (h : hasPrefix k (a ++ b) = true) :
    hasPrefix k a = true := by
  simp only [hasPrefix, List.isPrefixOf_iff_prefix] at h ⊢
  exact (List.prefix_append a b).trans h

theorem hasPrefix_refl (k : Bytes) : hasPrefix k k = true := by
  simp [hasPrefix, List.isPrefixOf_iff_prefix]

/-- The two prefixes scanned by `Delete` never match the same key. -/
theorem trial_prefixes_disjoint (s t k : Bytes)
    (h : hasPrefix k ("/studies/".toList ++ s ++ "/trials/".toList ++ t) = true) :
    hasPrefix k ("/files/".toList ++ s ++ "/".toList ++ t) = false := by
  rw [List.append_assoc, List.append_assoc] at h ⊢
  exact hasPrefix_disjoint k _ _ h

theorem Delete_studies (lib : Lib) (c : TrialController) (w : ResponseWriter) (r : Request)
    (s t : Bytes) :
    (TrialController.Delete lib c w r [("study", s), ("trial", t)]).1.studies =
      (TrialController.deletePrefixes lib
        [ "/studies/".toList ++ s ++ "/trials/".toList ++ t,
          "/files/".toList ++ s ++ "/".toList ++ t ] c.studies w).1 := by
  simp only [TrialController.Delete]
  split <;> rfl

theorem Delete_scan_ok (lib : Lib) (c : TrialController) (w : ResponseWriter) (r : Request)
    (s t : Bytes)
    (h1 : c.studies.faults.scanErr ("/studies/".toList ++ s ++ "/trials/".toList ++ t) = none)
    (h2 : c.studies.faults.scanErr ("/files/".toList ++ s ++ "/".toList ++ t) = none) :
    TrialController.Delete lib c w r [("study", s), ("trial", t)] =
      ({ c with studies := { c.studies with items := c.studies.items.filter (fun x =>
          !((hasPrefix x.Key ("/studies/".toList ++ s ++ "/trials/".toList ++ t) ||
              hasPrefix x.Key ("/files/".toList ++ s ++ "/".toList ++ t)) &&
            (c.studies.faults.deleteErr x.Key).isNone)) } },
       (((c.studies.items.filter (fun it =>
            hasPrefix it.Key ("/studies/".toList ++ s ++ "/trials/".toList ++ t)) ++
          c.studies.items.filter (fun it =>
            hasPrefix it.Key ("/files/".toList ++ s ++ "/".toList ++ t))).foldl
          (reportDelete lib c.studies.faults) w).SetHeader
            "Content-Type" "application/json").WriteHeader 200) := by
  have hb : ByName [("study", s), ("trial", t)] "study" = s := by simp [ByName]
  have ht : ByName [("study", s), ("trial", t)] "trial" = t := by simp [ByName]
  simp only [TrialController.Delete, hb, ht]
  rw [deletePrefixes_two lib _ _ c.studies w (trial_prefixes_disjoint s t) h1 h2]
  simp

/-- With scans and deletes succeeding, `Delete` leaves no item whose key starts
with one of the two scanned prefixes. -/
theorem Delete_leaves_no_match (lib : Lib) (c : TrialController) (w : ResponseWriter)
    (r : Request) (s t : Bytes)
    (hscan : ∀ p, c.studies.faults.scanErr p = none)
    (hdel : ∀ k, c.studies.faults.deleteErr k = none) :
    ∀ it ∈ (TrialController.Delete lib c w r [("study", s), ("trial", t)]).1.studies.items,
      hasPrefix it.Key ("/studies/".toList ++ s ++ "/trials/".toList ++ t) = false ∧
      hasPrefix it.Key ("/files/".toList ++ s ++ "/".toList ++ t) = false := by
  intro it hit
  simp only [Delete_scan_ok lib c w r s t (hscan _) (hscan _), List.mem_filter,
    hdel, Option.isNone_none, Bool.and_true, Bool.not_eq_true', Bool.or_eq_false_iff] at hit
  exact hit.2

/-! ## Claims about the trial `Delete` handler -/

/-- C2. Cascading trial delete: when the scans and deletes of the store
succeed, after `Delete` for `(s, t)` no stored key starts with
`/studies/s/trials/t` and none starts with `/files/s/t`; in particular the trial
key and every file key `/files/s/t/f` are absent. -/
theorem trial_delete_cascades (lib : Lib) (c : TrialController) (w : ResponseWriter)
    (r : Request) (s t : Bytes)
    (hscan : ∀ p, c.studies.faults.scanErr p = none)
    (hdel : ∀ k, c.studies.faults.deleteErr k = none) :
    (let after := (TrialController.Delete lib c w r [("study", s), ("trial", t)]).1.studies
    (∀ it ∈ after.items,
        hasPrefix it.Key ("/studies/".toList ++ s ++ "/trials/".toList ++ t) = false ∧
        hasPrefix it.Key ("/files/".toList ++ s ++ "/".toList ++ t) = false) ∧
    lookupKey ("/studies/".toList ++ s ++ "/trials/".toList ++ t) after.items = none ∧
    ∀ f, lookupKey ("/files/".toList ++ s ++ "/".toList ++ t ++ "/".toList ++ f)
      after.items = none) := by
  intro after
  have hall : ∀ it ∈ after.items,
      hasPrefix it.Key ("/studies/".toList ++ s ++ "/trials/".toList ++ t) = false ∧
      hasPrefix it.Key ("/files/".toList ++ s ++ "/".toList ++ t) = false :=
    Delete_leaves_no_match lib c w r s t hscan hdel
  refine ⟨hall, ?_, ?_⟩
  · rw [lookupKey_eq_none]
    intro it hit e
    have := (hall it hit).1
    rw [e, hasPrefix_refl] at this
    cases this
  · intro f
    rw [lookupKey_eq_none]
    intro it hit e
    have := (hall it hit).2
    rw [e] at this
    have h2 : hasPrefix ("/files/".toList ++ s ++ "/".toList ++ t ++ "/".toList ++ f)
        ("/files/".toList ++ s ++ "/".toList ++ t) = true := by
      simp only [hasPrefix, List.isPrefixOf_iff_prefix, List.append_assoc]
      repeat apply (List.prefix_append_right_inj _).mpr
      exact List.prefix_append _ _
    rw [h2] at this
    cases this

/-- The scenario of C2: trial `/studies/S1/trials/T1` and file
`/files/S1/T1/F1`; deleting trial `T1` of `S1` removes both. -/
theorem trial_delete_cascades_witness :
    (∀ p, trialWithFile.studies.faults.scanErr p = none) ∧
    (∀ k, trialWithFile.studies.faults.deleteErr k = none) ∧
    lookupKey "/studies/S1/trials/T1".toList trialWithFile.studies.items = some "t1".toList ∧
    lookupKey "/files/S1/T1/F1".toList trialWithFile.studies.items = some "f1".toList ∧
    lookupKey ("/studies/".toList ++ "S1".toList ++ "/trials/".toList ++ "T1".toList)
      (TrialController.Delete Lib.demo trialWithFile ResponseWriter.fresh Request.none
        [("study", "S1".toList), ("trial", "T1".toList)]).1.studies.items = none ∧
    lookupKey ("/files/".toList ++ "S1".toList ++ "/".toList ++ "T1".toList ++ "/".toList ++
        "F1".toList)
      (TrialController.Delete Lib.demo trialWithFile ResponseWriter.fresh Request.none
        [("study", "S1".toList), ("trial", "T1".toList)]).1.studies.items = none :=
  have h := trial_delete_cascades Lib.demo trialWithFile ResponseWriter.fresh Request.none
    "S1".toList "T1".toList (fun _ => rfl) (fun _ => rfl)
  ⟨fun _ => rfl, fun _ => rfl, by decide, by decide, h.2.1, h.2.2 "F1".toList⟩

/-- C8. Trial delete never touches study-scoped files: for all `s`, `t`, `f`,
whatever the store answers, the key `/studies/s/files/f` has after `Delete` for
`(s, t)` the value it had before (absent if it was absent); and when the scans
and deletes succeed no key under `/files/s/t/` is left. -/
theorem trial_delete_keeps_study_files (lib : Lib) (c : TrialController) (w : ResponseWriter)
    (r : Request) (s t f : Bytes) :
    (let after := (TrialController.Delete lib c w r [("study", s), ("trial", t)]).1.studies
    lookupKey ("/studies/".toList ++ s ++ "/files/".toList ++ f) after.items =
      lookupKey ("/studies/".toList ++ s ++ "/files/".toList ++ f) c.studies.items ∧
    ((∀ p, c.studies.faults.scanErr p = none) → (∀ k, c.studies.faults.deleteErr k = none) →
      ∀ it ∈ after.items,
        hasPrefix it.Key ("/files/".toList ++ s ++ "/".toList ++ t ++ "/".toList) = false)) := by
  intro after
  constructor
  · simp only [after, Delete_studies]
    apply deletePrefixes_frame
    intro pre hpre
    simp only [List.mem_cons, List.mem_singleton, List.not_mem_nil, or_false] at hpre
    rcases hpre with hpre | hpre
    · rw [hpre, List.append_assoc ("/studies/".toList ++ s),
        List.append_assoc ("/studies/".toList ++ s), hasPrefix_append]
      simp [hasPrefix, List.isPrefixOf]
    · rw [hpre, List.append_assoc, List.append_assoc, List.append_assoc, List.append_assoc]
      exact hasPrefix_studies_files _ _
  · intro hscan hdel it hit
    have h := Delete_leaves_no_match lib c w r s t hscan hdel it hit
    cases hp : hasPrefix it.Key ("/files/".toList ++ s ++ "/".toList ++ t ++ "/".toList)
    · rfl
    · rw [hasPrefix_of_append hp] at h
      exact absurd h.2 (by simp)

/-- The scenario of C8: files `/studies/S1/files/F1` and `/files/S1/T1/F1`;
deleting trial `T1` removes the second but not the first. -/
theorem trial_delete_keeps_study_files_witness :
    lookupKey ("/studies/".toList ++ "S1".toList ++ "/files/".toList ++ "F1".toList)
      (TrialController.Delete Lib.demo twoFiles ResponseWriter.fresh Request.none
        [("study", "S1".toList), ("trial", "T1".toList)]).1.studies.items = some "b".toList ∧
    (∀ it ∈ (TrialController.Delete Lib.demo twoFiles ResponseWriter.fresh Request.none
        [("study", "S1".toList), ("trial", "T1".toList)]).1.studies.items,
      hasPrefix it.Key ("/files/".toList ++ "S1".toList ++ "/".toList ++ "T1".toList ++
        "/".toList) = false) :=
  have h := trial_delete_keeps_study_files Lib.demo twoFiles ResponseWriter.fresh Request.none
    "S1".toList "T1".toList "F1".toList
  ⟨h.1.trans (by decide), h.2 (fun _ => rfl) (fun _ => rfl)⟩

/-- C10. Best-effort cascade: when both prefix scans succeed and `it0` is the
first matched item (in scan order) whose delete fails with error `e`, the
response status is 500, the body starts with the line
`couldn't delete item ` + the quoted key of `it0` + `: ` + `e`, every matched
key whose delete succeeds is absent afterwards, and every item left was there
before. -/
theorem trial_delete_best_effort (lib : Lib) (c : TrialController) (r : Request)
    (s t : Bytes) (it0 : Item)
    (hscan1 : c.studies.faults.scanErr
      ("/studies/".toList ++ s ++ "/trials/".toList ++ t) = none)
    (hscan2 : c.studies.faults.scanErr ("/files/".toList ++ s ++ "/".toList ++ t) = none)
    (hfirst : (c.studies.items.filter (fun it =>
            hasPrefix it.Key ("/studies/".toList ++ s ++ "/trials/".toList ++ t)) ++
          c.studies.items.filter (fun it =>
            hasPrefix it.Key ("/files/".toList ++ s ++ "/".toList ++ t))).find?
        (fun it => (c.studies.faults.deleteErr it.Key).isSome) = some it0) :
    (let out := TrialController.Delete lib c ResponseWriter.fresh r [("study", s), ("trial", t)]
    out.2.status = some 500 ∧
    (∃ e rest, c.studies.faults.deleteErr it0.Key = some e ∧
      out.2.body = "couldn't delete item ".toList ++ lib.quote it0.Key ++ ": ".toList ++ e ++
        ['\n'] ++ rest) ∧
    (∀ it ∈ c.studies.items,
      (hasPrefix it.Key ("/studies/".toList ++ s ++ "/trials/".toList ++ t) = true ∨
        hasPrefix it.Key ("/files/".toList ++ s ++ "/".toList ++ t) = true) →
      c.studies.faults.deleteErr it.Key = none →
      lookupKey it.Key out.1.studies.items = none) ∧
    (∀ it ∈ out.1.studies.items, it ∈ c.studies.items)) := by
  intro out
  obtain ⟨e, rest, he, hbody, hstatus⟩ :=
    reportDelete_first lib c.studies.faults _ ResponseWriter.fresh it0 hfirst
  have hout := Delete_scan_ok lib c ResponseWriter.fresh r s t hscan1 hscan2
  refine ⟨?_, ⟨e, rest, he, ?_⟩, ?_, ?_⟩
  · simp only [out, hout, ResponseWriter.WriteHeader, ResponseWriter.SetHeader, hstatus]
    rfl
  · simp only [out, hout, ResponseWriter.WriteHeader, ResponseWriter.SetHeader, hstatus, hbody]
    simp only [deleteMsg, ResponseWriter.fresh, List.nil_append, List.append_assoc]
  · intro it _ hpre hok
    rw [lookupKey_eq_none]
    intro x hx hk
    simp only [out, hout, List.mem_filter] at hx
    rw [hk, hok] at hx
    rcases hpre with hpre | hpre <;> rw [hpre] at hx <;> simp at hx
  · intro it hit
    simp only [out, hout, List.mem_filter] at hit
    exact hit.1

/-- An instance of C10: the delete of the trial key fails, the file is
deleted all the same, and the response is a 500 whose body is the message for
the trial key. -/
theorem trial_delete_best_effort_witness :
    trialLocked.studies.faults.scanErr
      ("/studies/".toList ++ "S1".toList ++ "/trials/".toList ++ "T1".toList) = none ∧
    trialLocked.studies.faults.scanErr
      ("/files/".toList ++ "S1".toList ++ "/".toList ++ "T1".toList) = none ∧
    (TrialController.Delete Lib.demo trialLocked ResponseWriter.fresh Request.none
      [("study", "S1".toList), ("trial", "T1".toList)]).2.status = some 500 ∧
    lookupKey "/files/S1/T1/F1".toList
      (TrialController.Delete Lib.demo trialLocked ResponseWriter.fresh Request.none
        [("study", "S1".toList), ("trial", "T1".toList)]).1.studies.items = none ∧
    (TrialController.Delete Lib.demo trialLocked ResponseWriter.fresh Request.none
      [("study", "S1".toList), ("trial", "T1".toList)]).2.body =
        "couldn't delete item \"/studies/S1/trials/T1\": locked\n".toList :=
  have h := trial_delete_best_effort Lib.demo trialLocked Request.none "S1".toList "T1".toList
    (kv "/studies/S1/trials/T1" "t1") rfl rfl (by decide)
  ⟨rfl, rfl, h.1,
    h.2.2.1 (kv "/files/S1/T1/F1" "f1") (by decide) (Or.inr (by decide)) (by decide),
    by decide⟩

/-- C3 on the code: deleting trial `T1` of study `S1` also removes the
sibling trial `T10` and the file of `T10`, because the scanned prefixes
`/studies/S1/trials/T1` and `/files/S1/T1` have no separator after the id. -/
theorem trial_delete_removes_sibling :
    lookupKey "/studies/S1/trials/T10".toList trialSiblings.studies.items = some "t10".toList ∧
    lookupKey "/files/S1/T10/F1".toList trialSiblings.studies.items = some "f10".toList ∧
    lookupKey "/studies/S1/trials/T10".toList
      (TrialController.Delete Lib.demo trialSiblings ResponseWriter.fresh Request.none
        [("study", "S1".toList), ("trial", "T1".toList)]).1.studies.items = none ∧
    lookupKey "/files/S1/T10/F1".toList
      (TrialController.Delete Lib.demo trialSiblings ResponseWriter.fresh Request.none
        [("study", "S1".toList), ("trial", "T1".toList)]).1.studies.items = none ∧
    (TrialController.Delete Lib.demo trialSiblings ResponseWriter.fresh Request.none
        [("study", "S1".toList), ("trial", "T1".toList)]).2.status = some 200 := by
  decide

/-! ## Claims about create and get -/

/-- C1. Create-then-get round trip: on stores whose operations succeed, after
the study `post` handler has processed a body with id `/studies/name` and data
`d`, the study `get` handler for `name` answers 200 with body exactly `d`; and
after the trial `Post` handler has processed a body with id
`/studies/s/trials/t` and data `d`, the trial `Get` handler for `(s, t)` answers
200 with body exactly `d`. -/
theorem create_then_get (sc : StudyController) (tc : TrialController) (x : Resource)
    (now name s t d : Bytes) (p : Params)
    (hs : sc.studies.Reliable) (ht : tc.studies.Reliable) :
    (let sc1 := (StudyController.post sc now ResponseWriter.fresh
      ⟨{ x with ID := "/studies/".toList ++ name, Data := some d }, none⟩ p).1
    let ws := (StudyController.get sc1 ResponseWriter.fresh Request.none [("name", name)]).2
    let tc1 := (TrialController.Post tc ResponseWriter.fresh
      ⟨{ x with ID := "/studies/".toList ++ s ++ "/trials/".toList ++ t, Data := some d },
        none⟩ p).1
    let wt := (TrialController.Get tc1 ResponseWriter.fresh Request.none
      [("study", s), ("trial", t)]).2
    ws.body = d ∧ ws.status = some 200 ∧ wt.body = d ∧ wt.status = some 200) := by
  obtain ⟨hsg, hsp, -, -, -⟩ := hs
  obtain ⟨htg, htp, -, -, -⟩ := ht
  have hn : ByName [("name", name)] "name" = name := by simp [ByName]
  have hb : ByName [("study", s), ("trial", t)] "study" = s := by simp [ByName]
  have hc : ByName [("study", s), ("trial", t)] "trial" = t := by simp [ByName]
  simp only [StudyController.post, StudyController.get, TrialController.Post,
    TrialController.Get, Bucket.Put, Bucket.Get, hsg, hsp, htg, htp, hn, hb, hc,
    lookupKey_insertKey_self, Option.getD_some, reportErr, ResponseWriter.Write,
    ResponseWriter.WriteHeader, ResponseWriter.SetHeader, ResponseWriter.fresh,
    List.nil_append, and_self]

/-- An instance of C1: study `S1` and trial `T1` of `S1` posted to empty
stores and fetched again. -/
theorem create_then_get_witness :
    Bucket.empty.Reliable ∧
    (StudyController.get
      (StudyController.post (StudyController.init demoHost) "now".toList ResponseWriter.fresh
        ⟨{ Resource.zero with ID := "/studies/".toList ++ "S1".toList,
                              Data := some "data".toList }, none⟩ []).1
      ResponseWriter.fresh Request.none [("name", "S1".toList)]).2.body = "data".toList ∧
    (TrialController.Get
      (TrialController.Post ⟨demoHost, Bucket.empty⟩ ResponseWriter.fresh
        ⟨{ Resource.zero with
            ID := "/studies/".toList ++ "S1".toList ++ "/trials/".toList ++ "T1".toList,
            Data := some "data".toList }, none⟩ []).1
      ResponseWriter.fresh Request.none
        [("study", "S1".toList), ("trial", "T1".toList)]).2.body = "data".toList :=
  have hrel : Bucket.empty.Reliable :=
    ⟨fun _ => rfl, fun _ _ => rfl, fun _ => rfl, rfl, fun _ => rfl⟩
  have h := create_then_get (StudyController.init demoHost) ⟨demoHost, Bucket.empty⟩
    Resource.zero "now".toList "S1".toList "S1".toList "T1".toList "data".toList [] hrel hrel
  ⟨hrel, h.1, h.2.2.1⟩

/-! ## Claims about the study `delete` handler -/

/-- C4 as stated fails: on a store whose operations all succeed, after the
study `delete` handler has run for `S1` the keys `/studies/S1/files/F1` and
`/studies/S1/trials/T1`, which start with `/studies/S1/`, are still stored. -/
theorem study_delete_keeps_descendants :
    studyWithTrial.studies.Reliable ∧
    lookupKey "/studies/S1/trials/T1".toList
      (StudyController.delete studyWithTrial ResponseWriter.fresh Request.none
        [("name", "S1".toList)]).1.studies.items = some "t1".toList ∧
    ∃ it ∈ (StudyController.delete studyWithTrial ResponseWriter.fresh Request.none
        [("name", "S1".toList)]).1.studies.items,
      hasPrefix it.Key ("/studies/".toList ++ "S1".toList ++ "/".toList) = true :=
  ⟨⟨fun _ => rfl, fun _ _ => rfl, fun _ => rfl, rfl, fun _ => rfl⟩, by decide,
    kv "/studies/S1/files/F1" "f1", by decide, by decide⟩

/-- C4 amended. On a store whose operations all succeed, after the study
`delete` handler has run for `name` the key `/studies/name` is absent, and every
other key keeps its value, the descendant keys `/studies/name/...` included. -/
theorem study_delete_exact_key (c : StudyController) (w : ResponseWriter) (r : Request)
    (name : Bytes) (hrel : c.studies.Reliable) :
    (let after := (StudyController.delete c w r [("name", name)]).1
    lookupKey ("/studies/".toList ++ name) after.studies.items = none ∧
    (∀ k, k ≠ "/studies/".toList ++ name →
      lookupKey k after.studies.items = lookupKey k c.studies.items) ∧
    (∀ x, lookupKey ("/studies/".toList ++ name ++ "/".toList ++ x) after.studies.items =
      lookupKey ("/studies/".toList ++ name ++ "/".toList ++ x) c.studies.items)) := by
  obtain ⟨-, -, hd, -, -⟩ := hrel
  have hn : ByName [("name", name)] "name" = name := by simp [ByName]
  have hframe : ∀ k, k ≠ "/studies/".toList ++ name →
      lookupKey k (StudyController.delete c w r [("name", name)]).1.studies.items =
        lookupKey k c.studies.items := by
    intro k hk
    simp only [StudyController.delete, Bucket.Delete, hd, hn]
    exact lookupKey_removeKey_ne _ hk
  refine ⟨?_, hframe, ?_⟩
  · simp only [StudyController.delete, Bucket.Delete, hd, hn]
    exact lookupKey_removeKey_self _ _
  · intro x
    apply hframe
    intro e
    have := congrArg List.length e
    simp only [List.length_append] at this
    have h1 : ("/".toList).length = 1 := rfl
    omega

/-- An instance of the amended C4: deleting study `S1` removes the key
`/studies/S1` and keeps the trial `/studies/S1/trials/T1`. -/
theorem study_delete_exact_key_witness :
    studyWithTrial.studies.Reliable ∧
    lookupKey ("/studies/".toList ++ "S1".toList)
      (StudyController.delete studyWithTrial ResponseWriter.fresh Request.none
        [("name", "S1".toList)]).1.studies.items = none :=
  have hrel : studyWithTrial.studies.Reliable :=
    ⟨fun _ => rfl, fun _ _ => rfl, fun _ => rfl, rfl, fun _ => rfl⟩
  ⟨hrel, (study_delete_exact_key studyWithTrial ResponseWriter.fresh Request.none
    "S1".toList hrel).1⟩

/-- C7 on the code: study `S1` is posted to an empty store and deleted with
every store operation succeeding. The `get` handler then answers 404, the
studies bucket has no payload for the key, yet the creation index still holds
it and the `list` handler answers 200 with one resource of id `/studies/S1`
and no data. -/
theorem study_delete_leaves_listing :
    (StudyController.delete postedS1 ResponseWriter.fresh Request.none
      [("name", "S1".toList)]).2.status = some 200 ∧
    lookupKey "/studies/S1".toList postedS1.studies.items = some "d".toList ∧
    lookupKey "/studies/S1".toList deletedS1.studies.items = none ∧
    lookupKey "/studies/S1".toList deletedS1.studylist.items = some "t0".toList ∧
    (StudyController.get deletedS1 ResponseWriter.fresh Request.none
      [("name", "S1".toList)]).2.status = some 404 ∧
    ∀ lib : Lib, (StudyController.list lib deletedS1 ResponseWriter.fresh Request.none []).2 =
      { header := [("Content-Type", "application/json")]
        status := some 200
        body := lib.jsonEncode
          [{ Version := "1".toList, Type_ := "study".toList, ID := "/studies/S1".toList,
             URL := "http://localhost:8081/studies/S1".toList, Data := none,
             Created := "t0".toList, Children := [] }] } := by
  refine ⟨by decide, by decide, by decide, by decide, by decide, fun lib => ?_⟩
  rfl

/-! ## Claims about the study `post` handler -/

/-- C9 on the code: the body is well formed, the write to the creation index
`studylist` fails and the write to `studies` succeeds; the error of the first
write is dropped and the response status is 201, with the payload stored and
the index left empty. -/
theorem study_post_drops_index_error :
    (indexReadOnly.studylist.Put "/studies/S1".toList "t0".toList).2 =
      some "read-only".toList ∧
    (StudyController.post indexReadOnly "t0".toList ResponseWriter.fresh
      (Request.of "/studies/S1".toList "d".toList) []).2.status = some 201 ∧
    (StudyController.post indexReadOnly "t0".toList ResponseWriter.fresh
      (Request.of "/studies/S1".toList "d".toList) []).2.body = [] ∧
    (StudyController.post indexReadOnly "t0".toList ResponseWriter.fresh
      (Request.of "/studies/S1".toList "d".toList) []).1.studylist.items = [] ∧
    lookupKey "/studies/S1".toList
      (StudyController.post indexReadOnly "t0".toList ResponseWriter.fresh
        (Request.of "/studies/S1".toList "d".toList) []).1.studies.items = some "d".toList := by
  decide

/-! ## Claims about the trial `List` handler -/

theorem trial_listLoop (c : TrialController) (items : List Item) (acc : List Resource) :
    TrialController.listLoop c items acc = acc ++ items.map (TrialController.resourceOf c) := by
  induction items generalizing acc with
  | nil => simp [TrialController.listLoop]
  | cons it rest ih => simp [TrialController.listLoop, ih]

/-- C5 on the code: a trial posted without data is answered 201 and stored
under its key with the empty value. `List` for its study then scans that key,
`Encode` fails on the empty raw message, the error is dropped, and the client
receives 200 with an empty body instead of the one resource of the stored
key. -/
theorem trial_list_drops_encode_error :
    (TrialController.Post ⟨demoHost, Bucket.empty⟩ ResponseWriter.fresh trialNoData
      []).2.status = some 201 ∧
    trialPostedNoData.studies.items = [⟨"/studies/S1/trials/T1".toList, []⟩] ∧
    hasPrefix "/studies/S1/trials/T1".toList
      ("/studies/".toList ++ "S1".toList ++ "/trials".toList) = true ∧
    ∀ lib : Lib,
      (TrialController.List lib trialPostedNoData ResponseWriter.fresh Request.none
        [("study", "S1".toList)]).2.body = [] ∧
      (TrialController.List lib trialPostedNoData ResponseWriter.fresh Request.none
        [("study", "S1".toList)]).2.code = 200 := by
  refine ⟨by decide, by decide, by decide, fun lib => ?_⟩
  have h : (TrialController.List lib trialPostedNoData ResponseWriter.fresh Request.none
      [("study", "S1".toList)]).2 =
      (Encode lib (ResponseWriter.fresh.SetHeader "Content-Type" "application/json")
        [{ Version := "1".toList, Type_ := "trial".toList,
           ID := "/studies/S1/trials/T1".toList,
           URL := "http://localhost:8081/studies/S1/trials/T1".toList, Data := some [],
           Created := [], Children := [] }]).1 := by
    rfl
  rw [h]
  simp [Encode, lib.jsonValid_nil, ResponseWriter.code, ResponseWriter.SetHeader,
    ResponseWriter.fresh]

/-- Apart from a failing `Encode`, the listing is exact, ordered and
scope-safe: on a well-formed store whose scan succeeds and whose matched values
are valid JSON, for a study `s` without `/`, `List` answers 200 with the
encoding of one resource per stored item whose key starts with
`/studies/s/trials`, in store order, with id the key and data the value; the
ids are strictly ascending (so pairwise distinct); no resource has the id of a
trial of another study `s1` without `/`; and the list is empty when no key
matches. -/
theorem trial_list_of_valid (lib : Lib) (c : TrialController) (r : Request) (s : Bytes)
    (hs : '/' ∉ s) (hwf : c.studies.WF)
    (hscan : c.studies.faults.scanErr ("/studies/".toList ++ s ++ "/trials".toList) = none)
    (hvalid : ∀ it ∈ c.studies.items,
      hasPrefix it.Key ("/studies/".toList ++ s ++ "/trials".toList) = true →
      lib.jsonValid it.Value = true) :
    (let out := (TrialController.List lib c ResponseWriter.fresh r [("study", s)]).2
    let resources : List Resource :=
      (c.studies.items.filter
        (fun it => hasPrefix it.Key ("/studies/".toList ++ s ++ "/trials".toList))).map
        (fun it =>
          { Version := "1".toList, Type_ := "trial".toList, ID := it.Key,
            URL := "http://".toList ++ c.host ++ it.Key, Data := some it.Value,
            Created := [], Children := [] })
    out.body = lib.jsonEncode resources ∧ out.status = some 200 ∧
    (resources.map (fun x => x.ID)).Pairwise (fun a b => bytesLt a b = true) ∧
    (resources.map (fun x => x.ID)).Nodup ∧
    (∀ s1 t1 : Bytes, '/' ∉ s1 → s1 ≠ s →
      ∀ x ∈ resources, x.ID ≠ "/studies/".toList ++ s1 ++ "/trials/".toList ++ t1) ∧
    ((∀ it ∈ c.studies.items,
        hasPrefix it.Key ("/studies/".toList ++ s ++ "/trials".toList) = false) →
      resources = [])) := by
  intro out resources
  have hn : ByName [("study", s)] "study" = s := by simp [ByName]
  have hsorted : (resources.map (fun x => x.ID)).Pairwise (fun a b => bytesLt a b = true) := by
    simp only [resources, List.map_map, List.pairwise_map, Function.comp]
    exact List.Pairwise.sublist (List.filter_sublist _) hwf
  have hall : ((c.studies.items.filter
      (fun it => hasPrefix it.Key ("/studies/".toList ++ s ++ "/trials".toList))).map
      (TrialController.resourceOf c)).all (fun x =>
        match x.Data with
        | none => true
        | some d => lib.jsonValid d) = true := by
    rw [List.all_eq_true]
    intro x hx
    simp only [List.mem_map, List.mem_filter] at hx
    obtain ⟨it, ⟨hit, hp⟩, rfl⟩ := hx
    exact hvalid it hit hp
  have hout : out = ((ResponseWriter.fresh.SetHeader "Content-Type" "application/json").Write
      (lib.jsonEncode ((c.studies.items.filter
        (fun it => hasPrefix it.Key ("/studies/".toList ++ s ++ "/trials".toList))).map
        (TrialController.resourceOf c)))) := by
    simp only [out, TrialController.List, hn, Bucket.PrefixItems, hscan, trial_listLoop,
      List.nil_append, Encode, hall, if_true]
  refine ⟨?_, ?_, hsorted, ?_, ?_, ?_⟩
  · rw [hout]
    simp only [ResponseWriter.Write, ResponseWriter.WriteHeader,
      ResponseWriter.SetHeader, ResponseWriter.fresh, List.nil_append]
    rfl
  · rw [hout]
    rfl
  · refine hsorted.imp ?_
    intro a b h e
    rw [e, bytesLt_irrefl] at h
    cases h
  · intro s1 t1 hs1 hne x hx e
    simp only [resources, List.mem_map, List.mem_filter] at hx
    obtain ⟨it, ⟨-, hp⟩, rfl⟩ := hx
    simp only at e
    rw [e, List.append_assoc, List.append_assoc, List.append_assoc, hasPrefix_append] at hp
    exact hne (segment_eq s s1 "trials".toList ("trials/".toList ++ t1) hs hs1 hp).symm
  · intro hnone
    apply List.map_eq_nil_iff.mpr
    apply List.filter_eq_nil_iff.mpr
    intro it hit
    rw [hnone it hit]
    simp

/-! ## Claims about the study `list` handler -/

theorem study_listLoop (c : StudyController) (hget : ∀ k, c.studies.faults.getErr k = none)
    (items : List Item) (w : ResponseWriter) (acc : List Resource) :
    StudyController.listLoop c items w acc =
      (w, acc ++ items.map (fun it =>
        { Version := "1".toList, Type_ := "study".toList, ID := it.Key,
          URL := "http://".toList ++ c.host ++ it.Key,
          Data := lookupKey it.Key c.studies.items, Created := it.Value, Children := [] })) := by
  induction items generalizing w acc with
  | nil => simp [StudyController.listLoop]
  | cons it rest ih =>
    simp [StudyController.listLoop, ih, Bucket.Get, hget, reportErr]

theorem post_state (c : StudyController) (now : Bytes) (w : ResponseWriter) (r : Request)
    (p : Params) (h1 : ∀ k v, c.studies.faults.putErr k v = none)
    (h2 : ∀ k v, c.studylist.faults.putErr k v = none) :
    (StudyController.post c now w r p).1 =
      { host := c.host
        studies := { c.studies with
          items := insertKey r.decoded.ID (r.decoded.Data.getD []) c.studies.items }
        studylist := { c.studylist with
          items := insertKey r.decoded.ID now c.studylist.items } } := by
  simp [StudyController.post, Bucket.Put, h1, h2]

/-- The store properties a run of posts maintains. -/
theorem posts_inv (ps : List (Bytes × Resource)) (c : StudyController)
    (h1 : ∀ k v, c.studies.faults.putErr k v = none)
    (h2 : ∀ k v, c.studylist.faults.putErr k v = none)
    (hwf : c.studylist.WF) :
    (StudyController.posts c ps).host = c.host ∧
    (StudyController.posts c ps).studies.faults = c.studies.faults ∧
    (StudyController.posts c ps).studylist.faults = c.studylist.faults ∧
    (StudyController.posts c ps).studylist.WF ∧
    (∀ k, (∀ q ∈ ps, q.2.ID ≠ k) →
      lookupKey k (StudyController.posts c ps).studies.items = lookupKey k c.studies.items ∧
      lookupKey k (StudyController.posts c ps).studylist.items =
        lookupKey k c.studylist.items) ∧
    (∀ it ∈ (StudyController.posts c ps).studylist.items,
      it ∈ c.studylist.items ∨ ∃ q ∈ ps, q.2.ID = it.Key) := by
  induction ps generalizing c with
  | nil =>
    exact ⟨rfl, rfl, rfl, hwf, fun _ _ => ⟨rfl, rfl⟩, fun it h => Or.inl h⟩
  | cons q rest ih =>
    obtain ⟨now, body⟩ := q
    have hst := post_state c now ResponseWriter.fresh ⟨body, none⟩ [] h1 h2
    simp only [StudyController.posts]
    have ih2 := ih (StudyController.post c now ResponseWriter.fresh ⟨body, none⟩ []).1
      (by rw [hst]; exact h1) (by rw [hst]; exact h2)
      (by rw [hst]; exact insertKey_pairwise hwf)
    obtain ⟨a1, a2, a3, a4, a5, a6⟩ := ih2
    refine ⟨by rw [a1, hst], by rw [a2, hst], by rw [a3, hst], a4, ?_, ?_⟩
    · intro k hk
      have hk1 : body.ID ≠ k := hk (now, body) (List.mem_cons_self _ _)
      have := a5 k (fun q hq => hk q (List.mem_cons_of_mem _ hq))
      rw [this.1, this.2, hst]
      exact ⟨lookupKey_insertKey_ne _ _ (fun e => hk1 e.symm),
        lookupKey_insertKey_ne _ _ (fun e => hk1 e.symm)⟩
    · intro it hit
      rcases a6 it hit with h | ⟨q, hq, e⟩
      · rw [hst] at h
        rcases mem_insertKey h with h | h
        · exact Or.inr ⟨(now, body), List.mem_cons_self _ _, by rw [h]⟩
        · exact Or.inl h
      · exact Or.inr ⟨q, List.mem_cons_of_mem _ hq, e⟩

theorem posts_append (c : StudyController) (xs ys : List (Bytes × Resource)) :
    StudyController.posts c (xs ++ ys) = StudyController.posts (StudyController.posts c xs) ys := by
  induction xs generalizing c with
  | nil => rfl
  | cons x xs ih =>
    obtain ⟨now, body⟩ := x
    simp only [List.cons_append, StudyController.posts]
    exact ih _

/-- Every id that occurs in a sequence of posts has a last post. -/
theorem last_post (ps : List (Bytes × Resource)) (k : Bytes) (h : ∃ q ∈ ps, q.2.ID = k) :
    ∃ before now body after, ps = before ++ (now, body) :: after ∧ body.ID = k ∧
      ∀ q ∈ after, q.2.ID ≠ k := by
  induction ps with
  | nil =>
    obtain ⟨q, hq, -⟩ := h
    cases hq
  | cons p rest ih =>
    by_cases hr : ∃ q ∈ rest, q.2.ID = k
    · obtain ⟨before, now, body, after, e, hb, ha⟩ := ih hr
      exact ⟨p :: before, now, body, after, by rw [e]; rfl, hb, ha⟩
    · obtain ⟨q, hq, e⟩ := h
      rcases List.mem_cons.mp hq with hq | hq
      · refine ⟨[], p.1, p.2, rest, rfl, ?_, ?_⟩
        · rw [← hq]; exact e
        · intro q2 hq2 e2
          exact hr ⟨q2, hq2, e2⟩
      · exact absurd ⟨q, hq, e⟩ hr

/-- After a run of posts on stores that accept every write, the last post of
an id decides the payload and the index entry of that id. -/
theorem posts_last (c : StudyController) (before after : List (Bytes × Resource))
    (now : Bytes) (body : Resource)
    (h1 : ∀ k v, c.studies.faults.putErr k v = none)
    (h2 : ∀ k v, c.studylist.faults.putErr k v = none)
    (hwf : c.studylist.WF)
    (hafter : ∀ q ∈ after, q.2.ID ≠ body.ID) :
    lookupKey body.ID (StudyController.posts c (before ++ (now, body) :: after)).studies.items =
      some (body.Data.getD []) ∧
    lookupKey body.ID (StudyController.posts c (before ++ (now, body) :: after)).studylist.items =
      some now := by
  rw [posts_append]
  simp only [StudyController.posts]
  obtain ⟨-, b2, b3, b4, -, -⟩ := posts_inv before c h1 h2 hwf
  have g1 : ∀ k v, (StudyController.posts c before).studies.faults.putErr k v = none := by
    rw [b2]; exact h1
  have g2 : ∀ k v, (StudyController.posts c before).studylist.faults.putErr k v = none := by
    rw [b3]; exact h2
  have hst := post_state (StudyController.posts c before) now ResponseWriter.fresh
    ⟨body, none⟩ [] g1 g2
  obtain ⟨-, -, -, -, a5, -⟩ := posts_inv after
    (StudyController.post (StudyController.posts c before) now ResponseWriter.fresh
      ⟨body, none⟩ []).1
    (by rw [hst]; exact g1) (by rw [hst]; exact g2) (by rw [hst]; exact insertKey_pairwise b4)
  have := a5 body.ID hafter
  rw [this.1, this.2, hst]
  exact ⟨lookupKey_insertKey_self _ _ _, lookupKey_insertKey_self _ _ _⟩

/-- C6 on the code: a study posted without data is answered 201 and stored
under its id with the empty value. `list` then fetches that value, `Encode`
fails on the empty raw message, the error is dropped, and the client receives
200 with an empty body instead of one resource for the posted id. -/
theorem study_list_drops_encode_error :
    (StudyController.post (StudyController.init demoHost) "t0".toList ResponseWriter.fresh
      studyNoData []).2.status = some 201 ∧
    studyPostedNoData.studies.items = [⟨"/studies/S1".toList, []⟩] ∧
    studyPostedNoData.studylist.items = [⟨"/studies/S1".toList, "t0".toList⟩] ∧
    ∀ lib : Lib,
      (StudyController.list lib studyPostedNoData ResponseWriter.fresh Request.none
        []).2.body = [] ∧
      (StudyController.list lib studyPostedNoData ResponseWriter.fresh Request.none
        []).2.status = some 200 := by
  refine ⟨by decide, by decide, by decide, fun lib => ?_⟩
  have h : (StudyController.list lib studyPostedNoData ResponseWriter.fresh Request.none
      []).2 =
      (Encode lib ((ResponseWriter.fresh.SetHeader "Content-Type"
          "application/json").WriteHeader 200)
        [{ Version := "1".toList, Type_ := "study".toList, ID := "/studies/S1".toList,
           URL := "http://localhost:8081/studies/S1".toList, Data := some [],
           Created := "t0".toList, Children := [] }]).1 := by
    rfl
  rw [h]
  simp [Encode, lib.jsonValid_nil, ResponseWriter.WriteHeader, ResponseWriter.SetHeader,
    ResponseWriter.fresh]

/-- Apart from a failing `Encode`, the listing reflects last-write-wins
creation: after any finite sequence of study posts with valid JSON data,
handled on an empty store that accepts every write, `list` answers 200 with
the encoding of a list of resources whose ids are pairwise distinct, that has
a resource for every posted id, and in which every resource is the one of the
last post of its id: type `study`, version `1`, the posted id, url `http://` +
host + id, the payload of that post and its time stamp. -/
theorem study_list_of_valid (lib : Lib) (host : Bytes)
    (posts : List (Bytes × Resource)) (r : Request) (p : Params)
    (hvalid : ∀ q ∈ posts, lib.jsonValid (q.2.Data.getD []) = true) :
    ∃ resources : List Resource,
      (StudyController.list lib (StudyController.posts (StudyController.init host) posts)
        ResponseWriter.fresh r p).2.body = lib.jsonEncode resources ∧
      (StudyController.list lib (StudyController.posts (StudyController.init host) posts)
        ResponseWriter.fresh r p).2.status = some 200 ∧
      (resources.map (fun x => x.ID)).Nodup ∧
      (∀ q ∈ posts, q.2.ID ∈ resources.map (fun x => x.ID)) ∧
      (∀ x ∈ resources, ∃ before now body after,
        posts = before ++ (now, body) :: after ∧ (∀ q ∈ after, q.2.ID ≠ body.ID) ∧
        x = { Version := "1".toList, Type_ := "study".toList, ID := body.ID,
              URL := "http://".toList ++ host ++ body.ID,
              Data := some (body.Data.getD []), Created := now, Children := [] }) := by
  have h1 : ∀ k v, (StudyController.init host).studies.faults.putErr k v = none :=
    fun _ _ => rfl
  have h2 : ∀ k v, (StudyController.init host).studylist.faults.putErr k v = none :=
    fun _ _ => rfl
  have hwf : (StudyController.init host).studylist.WF := List.Pairwise.nil
  obtain ⟨a1, a2, a3, a4, -, a6⟩ := posts_inv posts (StudyController.init host) h1 h2 hwf
  generalize hc : StudyController.posts (StudyController.init host) posts = c at a1 a2 a3 a4 a6
  have hget : ∀ k, c.studies.faults.getErr k = none := by
    intro k; rw [a2]; rfl
  have hitems : c.studylist.faults.itemsErr = none := by rw [a3]; rfl
  have hchar : ∀ it ∈ c.studylist.items, ∃ before now body after,
      posts = before ++ (now, body) :: after ∧ (∀ q ∈ after, q.2.ID ≠ body.ID) ∧
      it.Key = body.ID ∧ it.Value = now ∧
      lookupKey it.Key c.studies.items = some (body.Data.getD []) := by
    intro it hit
    have hposted : ∃ q ∈ posts, q.2.ID = it.Key := by
      rcases a6 it hit with h | h
      · simp [StudyController.init, Bucket.empty] at h
      · exact h
    obtain ⟨before, now, body, after, e, hb, ha⟩ := last_post posts it.Key hposted
    have hl := posts_last (StudyController.init host) before after now body h1 h2 hwf
      (by rw [hb]; exact ha)
    rw [← e, hc, hb] at hl
    have hv := lookupKey_of_mem a4 hit
    rw [hl.2] at hv
    simp only [Option.some.injEq] at hv
    exact ⟨before, now, body, after, e, by rw [hb]; exact ha, hb.symm, hv.symm, hl.1⟩
  have hall : (c.studylist.items.map (fun it =>
        ({ Version := "1".toList, Type_ := "study".toList, ID := it.Key,
           URL := "http://".toList ++ c.host ++ it.Key,
           Data := lookupKey it.Key c.studies.items, Created := it.Value,
           Children := [] } : Resource))).all (fun x =>
        match x.Data with
        | none => true
        | some d => lib.jsonValid d) = true := by
    rw [List.all_eq_true]
    intro x hx
    simp only [List.mem_map] at hx
    obtain ⟨it, hit, rfl⟩ := hx
    obtain ⟨before, now, body, after, e, -, -, -, hl⟩ := hchar it hit
    simp only [hl]
    apply hvalid (now, body)
    rw [e]
    simp
  have hout : (StudyController.list lib c ResponseWriter.fresh r p).2 =
      ((ResponseWriter.fresh.SetHeader "Content-Type" "application/json").WriteHeader 200).Write
        (lib.jsonEncode (c.studylist.items.map (fun it =>
          { Version := "1".toList, Type_ := "study".toList, ID := it.Key,
            URL := "http://".toList ++ c.host ++ it.Key,
            Data := lookupKey it.Key c.studies.items, Created := it.Value,
            Children := [] }))) := by
    simp only [StudyController.list, Bucket.Items, hitems, study_listLoop c hget, reportErr,
      List.nil_append, Encode, hall, if_true]
  refine ⟨c.studylist.items.map (fun it =>
        { Version := "1".toList, Type_ := "study".toList, ID := it.Key,
          URL := "http://".toList ++ c.host ++ it.Key,
          Data := lookupKey it.Key c.studies.items, Created := it.Value, Children := [] }),
    ?_, ?_, ?_, ?_, ?_⟩
  · rw [hout]
    simp [ResponseWriter.Write, ResponseWriter.WriteHeader, ResponseWriter.SetHeader,
      ResponseWriter.fresh]
  · rw [hout]
    rfl
  · simp only [List.map_map, Function.comp]
    show List.Pairwise _ _
    rw [List.pairwise_map]
    refine List.Pairwise.imp ?_ a4
    intro a b h e
    have e2 : a.Key = b.Key := e
    rw [e2, bytesLt_irrefl] at h
    cases h
  · intro q hq
    obtain ⟨before, now, body, after, e, hb, ha⟩ := last_post posts q.2.ID ⟨q, hq, rfl⟩
    have hl := (posts_last (StudyController.init host) before after now body h1 h2 hwf
      (by rw [hb]; exact ha)).2
    rw [← e, hc, hb] at hl
    simp only [List.map_map, Function.comp, List.mem_map]
    exact ⟨_, lookupKey_mem hl, rfl⟩
  · intro x hx
    simp only [List.mem_map] at hx
    obtain ⟨it, hit, rfl⟩ := hx
    obtain ⟨before, now, body, after, e, ha, hk, hv, hl⟩ := hchar it hit
    refine ⟨before, now, body, after, e, ha, ?_⟩
    rw [hl, a1, hk, hv]
    rfl
